import Mathlib

/-!
Shallow embedding of the CV-Extractor backend core (CV-to-job matching service).

The JavaScript sources embedded here:
  * `src/services/matchingService.js` — `isCacheValid`, `calculateMatchingScore`
  * `src/services/openaiService.js`   — `calculateJobMatch` (details normalization),
    `calculateCosineSimilarity`, `parseSearchQuery`, `buildDatabaseQuery`, `searchCVs`
  * `src/services/pdfService.js`      — `isTextSufficient`
  * `src/services/cvExtractionService.js` — `processCVFile`
  * `src/models/match.model.js`, `src/models/cvData.model.js`, `src/models/job.model.js`

Modelling conventions:
  * JS `Date` values are milliseconds since the epoch, represented as `Int`
    (`Date` comparison and arithmetic in the source go through `getTime()`).
  * JS numbers are represented as `ℚ` (exact rationals); the one place where an
    irrational value arises (the square roots inside the cosine similarity) uses `ℝ`.
    A JS arithmetic result of `NaN` is represented as `Option.none`.
  * A JS property that may be `undefined` is an `Option`.
  * Fallible JS code (`throw` / rejected promises) returns `Except String`.
  * External service calls (OpenAI chat/embeddings, pdf rendering) are oracles passed
    in as explicit parameters, holding the value the call would produce.
-/

/-! ### JavaScript string primitives

`parseSearchQuery`, `isTextSufficient` and the mongo regex filters work on JS strings.
Strings are processed as `List Char`.  The JS whitespace class `\s` is modelled by the
ASCII whitespace characters (space, tab, line feed, vertical tab, form feed, carriage
return) — the source texts never contain the exotic Unicode space characters. -/

/-- Character class `\s` of JS regexes (ASCII fragment). -/
def isJsWs (c : Char) : Bool :=
  c = ' ' || c = '\t' || c = '\n' || c = '\x0b' || c = '\x0c' || c = '\r'

/-- Character class `\w` of JS regexes: `[A-Za-z0-9_]`. -/
def isJsWordChar (c : Char) : Bool :=
  ('a' ≤ c && c ≤ 'z') || ('A' ≤ c && c ≤ 'Z') || ('0' ≤ c && c ≤ '9') || c = '_'

/-- Character class `[a-zA-Z0-9]` used by the alphanumeric count in `isTextSufficient`. -/
def isAlnum (c : Char) : Bool :=
  ('a' ≤ c && c ≤ 'z') || ('A' ≤ c && c ≤ 'Z') || ('0' ≤ c && c ≤ '9')

/-- Character class `[\d.]` of the GPA regex. -/
def isDigitDot (c : Char) : Bool :=
  ('0' ≤ c && c ≤ '9') || c = '.'

/-- ASCII lower-casing, used to model the `i` (ignore-case) regex flag. -/
def jsLower (c : Char) : Char :=
  if 'A' ≤ c && c ≤ 'Z' then Char.ofNat (c.toNat + 32) else c

/-- Case-insensitive character comparison (regex `i` flag). -/
def charIEq (a b : Char) : Bool := jsLower a = jsLower b

/-- `String.prototype.trim()` on a character list. -/
def trimList (s : List Char) : List Char :=
  ((s.dropWhile isJsWs).reverse.dropWhile isJsWs).reverse

/-- `String.prototype.trim()`. -/
def jsTrim (s : String) : String := ⟨trimList s.data⟩

/-- Helper for `collapseWs`: `prevWs` records whether the previous character was
whitespace already replaced by a space. -/
def collapseWsAux : Bool → List Char → List Char
  | _, [] => []
  | prevWs, c :: rest =>
    if isJsWs c then
      if prevWs then collapseWsAux true rest
      else ' ' :: collapseWsAux true rest
    else c :: collapseWsAux false rest

/-- `str.replace(/\s+/g, ' ')`: every maximal whitespace run becomes one space. -/
def collapseWs (s : List Char) : List Char := collapseWsAux false s

/-- `text.match(/[a-zA-Z0-9]/g) || []).length`: number of alphanumeric characters. -/
def countAlnum (s : List Char) : Nat := (s.filter isAlnum).length

/-!
`pdfService.isTextSufficient` (src/services/pdfService.js, lines 50–71):

```js
isTextSufficient(text) {
  if (!text || text.trim().length === 0) return false;
  const cleanText = text.trim().replace(/\s+/g, ' ');
  const alphanumericCount = (cleanText.match(/[a-zA-Z0-9]/g) || []).length;
  const isToShort = cleanText.length < 50;
  const hasLowAlphanumericRatio = alphanumericCount / cleanText.length < 0.3;
  return !(isToShort || hasLowAlphanumericRatio);
}
```
-/

/-- `pdfService.isTextSufficient`.  The JS falsy test `!text` coincides with
`text.trim().length === 0` on the empty string, so the guard is the single
condition `trim(text) = ""`.  The JS float comparison `count / length < 0.3` is the
exact-rational comparison `count/length < 3/10`, written with `mkRat` (the kernel-
evaluable rational division; the guard ensures `length ≠ 0`). -/
def isTextSufficient (text : String) : Bool :=
  if (trimList text.data).length = 0 then false
  else
    let cleanText := collapseWs (trimList text.data)
    let alphanumericCount := countAlnum cleanText
    let isToShort := cleanText.length < 50
    let hasLowAlphanumericRatio :=
      mkRat alphanumericCount cleanText.length < mkRat 3 10
    !(isToShort || hasLowAlphanumericRatio)

/-! ### Data model -/

/-- One `{score, analysis}` sub-object of a match's `details`
(`match.model.js`, lines 20–37). -/
structure SubScore where
  score : ℚ
  analysis : String
  deriving Repr, DecidableEq

/-- The `details` object of a match: exactly the four fixed sub-objects. -/
structure MatchDetails where
  skills : SubScore
  experience : SubScore
  education : SubScore
  overall : SubScore
  deriving Repr, DecidableEq

/-- One education entry of a CV (`cvData.model.js`, `EducationSchema`).
Only the fields the verified operations read are carried.  `gpa` is `none` when the
stored document has no such field. -/
structure EducationEntry where
  institution : String
  gpa : Option ℚ
  deriving Repr, DecidableEq

/-- One experience entry of a CV (`cvData.model.js`, `ExperienceSchema`). -/
structure ExperienceEntry where
  company : String
  position : String
  deriving Repr, DecidableEq

/-- One skill-category group of a CV (`cvData.model.js`, `SkillSchema`). -/
structure SkillGroup where
  category : String
  skills : List String
  deriving Repr, DecidableEq

/-- Extraction-method provenance tag (`cvData.model.js`, `extractionMethod` enum). -/
inductive ExtractionMethod where
  | text
  | vision
  | text_fallback
  deriving Repr, DecidableEq

/-- A persisted `CVData` document (`cvData.model.js`).  The schema declares
`extractedAt` but no `updatedAt` field, hence `updatedAt : Option Int` — it is `none`
on every document the schema produces, and `isCacheValid` reads it defensively with
`cv.updatedAt || cv.extractedAt`. -/
structure CVRecord where
  id : Nat
  fileName : String
  extractedAt : Int
  updatedAt : Option Int
  extractionMethod : ExtractionMethod
  education : List EducationEntry
  experience : List ExperienceEntry
  skills : List SkillGroup
  rawText : String
  embedding : Option (List ℚ)
  searchableText : String
  deriving Repr, DecidableEq

/-- A persisted `Job` document (`job.model.js`).  Only the fields the matching and
cache logic read are carried. -/
structure JobRecord where
  id : Nat
  title : String
  company : String
  createdAt : Int
  updatedAt : Option Int
  active : Bool
  deriving Repr, DecidableEq

/-- A persisted `Match` document (`match.model.js`).  `cvVersion`/`jobVersion` are the
source documents' modification timestamps at calculation time; `cacheTime` is the TTL
in seconds (schema default 604800 = 7 days). -/
structure MatchRecord where
  cvId : Nat
  jobId : Nat
  score : ℚ
  details : MatchDetails
  recommendations : List String
  cvVersion : Int
  jobVersion : Int
  createdAt : Int
  updatedAt : Int
  cacheTime : Int
  deriving Repr, DecidableEq

/-! ### Match cache validity (`matchingService.isCacheValid`, lines 15–44)

```js
isCacheValid(match, cv, job) {
  if (!match) return false;
  const cvUpdateTime = cv.updatedAt || cv.extractedAt;
  const jobUpdateTime = job.updatedAt || job.createdAt;
  if (match.cvVersion < cvUpdateTime || match.jobVersion < jobUpdateTime) return false;
  const cacheExpiryTime = new Date(match.updatedAt.getTime() + (match.cacheTime * 1000));
  if (new Date() > cacheExpiryTime) return false;
  return true;
}
```

`new Date()` is passed in explicitly as `now` (milliseconds). -/

/-- `cv.updatedAt || cv.extractedAt`: the CV's current modification timestamp as the
cache logic computes it. -/
def cvUpdateTime (cv : CVRecord) : Int := cv.updatedAt.getD cv.extractedAt

/-- `job.updatedAt || job.createdAt`. -/
def jobUpdateTime (job : JobRecord) : Int := job.updatedAt.getD job.createdAt

/-- `matchingService.isCacheValid`. -/
def isCacheValid (m : Option MatchRecord) (cv : CVRecord) (job : JobRecord)
    (now : Int) : Bool :=
  match m with
  | none => false
  | some m =>
    if m.cvVersion < cvUpdateTime cv || m.jobVersion < jobUpdateTime job then false
    else
      let cacheExpiryTime := m.updatedAt + m.cacheTime * 1000
      if now > cacheExpiryTime then false
      else true

/-! ### Scoring-response normalization (`openaiService.calculateJobMatch`, lines 464–491)

The upstream model's JSON response is parsed and its `details` normalized:

```js
const normalizedDetails = {
  skills:     { score: r.details?.skills?.score     || r.details?.skills?.match        || 0,
                analysis: r.details?.skills?.analysis || '' },
  experience: { score: r.details?.experience?.score || r.details?.experience?.relevance || 0,
                analysis: r.details?.experience?.analysis || '' },
  education:  { score: r.details?.education?.score  || r.details?.education?.alignment || 0,
                analysis: r.details?.education?.analysis || '' },
  overall:    { score: r.details?.overall?.score    || r.details?.overall?.fit         || 0,
                analysis: r.details?.overall?.analysis || '' }
};
```
-/

/-- One sub-object of the RAW upstream `details`, before normalization.  The upstream
JSON may carry the numeric sub-score under `score` or under an alternate key; each
possible key is an optional field (`matchScore` models the JSON key `match`, which is a
reserved word in Lean). -/
structure RawSubScore where
  score : Option ℚ
  matchScore : Option ℚ
  relevance : Option ℚ
  fit : Option ℚ
  alignment : Option ℚ
  analysis : Option String
  deriving Repr, DecidableEq

/-- The raw upstream `details` object (any of the four sub-objects may be absent). -/
structure RawDetails where
  skills : Option RawSubScore
  experience : Option RawSubScore
  education : Option RawSubScore
  overall : Option RawSubScore
  deriving Repr, DecidableEq

/-- The parsed upstream scoring response (`JSON.parse(responseContent)`). -/
structure RawMatchResponse where
  score : ℚ
  details : RawDetails
  recommendations : List String
  deriving Repr, DecidableEq

/-- JS `a || b` on numbers: `a` unless it is falsy (`undefined` or `0`). -/
def jsOrNum (a : Option ℚ) (b : ℚ) : ℚ :=
  match a with
  | some x => if x = 0 then b else x
  | none => b

/-- JS `a || ''` on an optional string (`''` is falsy, so the result is the same). -/
def jsOrEmpty (a : Option String) : String :=
  match a with
  | some s => if s = "" then "" else s
  | none => ""

/-- `r.details?.skills?.score` — optional-chained read of a raw sub-score field. -/
def rawField (sub : Option RawSubScore) (f : RawSubScore → Option ℚ) : Option ℚ :=
  match sub with
  | none => none
  | some s => f s

/-- `r.details?.skills?.analysis`. -/
def rawAnalysis (sub : Option RawSubScore) : Option String :=
  match sub with
  | none => none
  | some s => s.analysis

/-- The `normalizedDetails` object built by `calculateJobMatch`. -/
def normalizeDetails (d : RawDetails) : MatchDetails where
  skills :=
    { score := jsOrNum (rawField d.skills (·.score))
        (jsOrNum (rawField d.skills (·.matchScore)) 0)
      analysis := jsOrEmpty (rawAnalysis d.skills) }
  experience :=
    { score := jsOrNum (rawField d.experience (·.score))
        (jsOrNum (rawField d.experience (·.relevance)) 0)
      analysis := jsOrEmpty (rawAnalysis d.experience) }
  education :=
    { score := jsOrNum (rawField d.education (·.score))
        (jsOrNum (rawField d.education (·.alignment)) 0)
      analysis := jsOrEmpty (rawAnalysis d.education) }
  overall :=
    { score := jsOrNum (rawField d.overall (·.score))
        (jsOrNum (rawField d.overall (·.fit)) 0)
      analysis := jsOrEmpty (rawAnalysis d.overall) }

/-- The value `calculateJobMatch` resolves with: the parsed response with `details`
replaced by `normalizedDetails`. -/
structure MatchResult where
  score : ℚ
  details : MatchDetails
  recommendations : List String
  deriving Repr, DecidableEq

/-- `openaiService.calculateJobMatch`, applied to the parsed upstream response
(the OpenAI call itself is the oracle producing `raw`). -/
def calculateJobMatch (raw : RawMatchResponse) : MatchResult where
  score := raw.score
  details := normalizeDetails raw.details
  recommendations := raw.recommendations

/-! ### Match scoring and cache (`matchingService.calculateMatchingScore`, lines 52–145)

The `Match` collection is a list of `MatchRecord`s; `Match.findOne({cvId, jobId})` is
the first list element with both ids equal.  The OpenAI scoring call is the oracle
`raw : RawMatchResponse`.  `new Date()` is `now`.

```js
let cachedMatch = await Match.findOne({ cvId: cv._id, jobId: job._id });
if (this.isCacheValid(cachedMatch, cv, job)) {
  return { score: .., details: .., recommendations: .., fromCache: true };
}
const matchResult = await openaiService.calculateJobMatch({ .. });
if (cachedMatch) {
  cachedMatch.score = matchResult.score; ...; cachedMatch.updatedAt = new Date();
  await cachedMatch.save();
} else {
  await Match.create({ cvId, jobId, score, details, recommendations, cvVersion, jobVersion });
}
return matchResult;
```
-/

/-- What `calculateMatchingScore` resolves with.  On the cached path the source adds
`fromCache: true`; on the fresh path it returns `matchResult` as-is, whose `fromCache`
property is therefore `undefined` — modelled as `none`. -/
structure ComputeOutcome where
  score : ℚ
  details : MatchDetails
  recommendations : List String
  fromCache : Option Bool
  deriving Repr, DecidableEq

/-- `Match.findOne({ cvId: cv._id, jobId: job._id })` over the match collection. -/
def findMatch (store : List MatchRecord) (cvId jobId : Nat) : Option MatchRecord :=
  store.find? (fun m => m.cvId = cvId && m.jobId = jobId)

/-- `Match.create({...})`: the new document as built on the fresh-insert path; the
schema defaults fill `createdAt`/`updatedAt` with `Date.now` and `cacheTime` with
604800. -/
def newMatchRecord (cv : CVRecord) (job : JobRecord) (r : MatchResult)
    (now : Int) : MatchRecord where
  cvId := cv.id
  jobId := job.id
  score := r.score
  details := r.details
  recommendations := r.recommendations
  cvVersion := cvUpdateTime cv
  jobVersion := jobUpdateTime job
  createdAt := now
  updatedAt := now
  cacheTime := 604800

/-- The in-place update of an existing cached record on recomputation
(`cachedMatch.score = ...; ...; await cachedMatch.save()`). -/
def updatedMatchRecord (m : MatchRecord) (cv : CVRecord) (job : JobRecord)
    (r : MatchResult) (now : Int) : MatchRecord :=
  { m with
    score := r.score
    details := r.details
    recommendations := r.recommendations
    cvVersion := cvUpdateTime cv
    jobVersion := jobUpdateTime job
    updatedAt := now }

/-- `matchingService.calculateMatchingScore` as a transition on the match collection:
returns the resolved value and the collection after the upsert. -/
def calculateMatchingScore (store : List MatchRecord) (cv : CVRecord) (job : JobRecord)
    (raw : RawMatchResponse) (now : Int) : ComputeOutcome × List MatchRecord :=
  let cachedMatch := findMatch store cv.id job.id
  if isCacheValid cachedMatch cv job now then
    match cachedMatch with
    | some m =>
      ({ score := m.score, details := m.details, recommendations := m.recommendations,
         fromCache := some true }, store)
    | none => ({ score := 0, details := (normalizeDetails ⟨none, none, none, none⟩),
                 recommendations := [], fromCache := some true }, store)
  else
    let matchResult := calculateJobMatch raw
    let newStore :=
      match cachedMatch with
      | some _ =>
        store.map (fun m =>
          if m.cvId = cv.id && m.jobId = job.id then
            updatedMatchRecord m cv job matchResult now
          else m)
      | none => store ++ [newMatchRecord cv job matchResult now]
    ({ score := matchResult.score, details := matchResult.details,
       recommendations := matchResult.recommendations, fromCache := none }, newStore)

/-! ### Extraction pipeline (`cvExtractionService.processCVFile`)

The external calls are oracles bundled in `PipelineEnv`:

```js
const extractedText = await pdfService.extractText(filePath);
let structuredData; let extractionMethod = 'text';
if (pdfService.isTextSufficient(extractedText)) {
  structuredData = await openaiService.extractCVData(extractedText);
} else {
  try {
    const imageBuffers = await pdfService.extractImages(filePath);
    if (imageBuffers.length === 0) throw new Error('No images could be extracted from PDF');
    structuredData = await openaiService.extractCVDataFromImages(imageBuffers);
    extractionMethod = 'vision';
  } catch (visionError) {
    if (extractedText && extractedText.trim().length > 0) {
      structuredData = await openaiService.extractCVData(extractedText);
      extractionMethod = 'text_fallback';
    } else {
      throw new Error('Both text and vision extraction failed');
    }
  }
}
const cvData = new CVData({ fileName, ...structuredData, rawText: extractedText, extractionMethod });
const searchableText = cvData.generateSearchableText();
cvData.embedding = await openaiService.getEmbeddings(searchableText);
await cvData.save();
return cvData;
```
-/

/-- The structured CV fields returned by the extraction client (text or vision mode).
The claims only inspect the fields that flow into the filters, so the rest of the
schema is omitted. -/
structure StructuredData where
  education : List EducationEntry
  experience : List ExperienceEntry
  skills : List SkillGroup
  searchable : String
  deriving Repr, DecidableEq

/-- Oracle values for one `processCVFile` run: the result each external call would
produce.  `extractImages` and the two extraction-client calls can fail (`Except`);
the embedding client's successful value is `embedding` (its failure mode is outside
the claims about the extraction state machine). -/
structure PipelineEnv where
  extractedText : String
  imagesResult : Except String (List Nat)
  visionResult : Except String StructuredData
  textResult : Except String StructuredData
  embedding : List ℚ
  deriving Repr

/-- How a `processCVFile` run can reject: `service e` propagates an external call's
error `e`; `bothFailed` is the pipeline's own terminal failure state
(`throw new Error('Both text and vision extraction failed')`). -/
inductive PipelineError where
  | service (msg : String)
  | bothFailed
  deriving Repr, DecidableEq

/-- The body of the `try` block: render images, reject an empty page list, then the
vision-mode extraction call. -/
def visionAttempt (env : PipelineEnv) : Except String StructuredData :=
  match env.imagesResult with
  | .error e => .error e
  | .ok imageBuffers =>
    if imageBuffers.length = 0 then .error "No images could be extracted from PDF"
    else env.visionResult

/-- The `CVData` document built and saved at the end of the pipeline.  The schema has
no `updatedAt` field, so the document's `updatedAt` is `none`; `extractedAt` gets the
schema default `Date.now`. -/
def builtCVRecord (d : StructuredData) (env : PipelineEnv)
    (originalFilename : String) (newId : Nat) (now : Int)
    (extractionMethod : ExtractionMethod) : CVRecord where
  id := newId
  fileName := originalFilename
  extractedAt := now
  updatedAt := none
  extractionMethod := extractionMethod
  education := d.education
  experience := d.experience
  skills := d.skills
  rawText := env.extractedText
  embedding := some env.embedding
  searchableText := d.searchable

/-- `cvExtractionService.processCVFile`: the extraction state machine, resolving with
the persisted document or rejecting with the propagated error. -/
def processCVFile (env : PipelineEnv) (originalFilename : String) (newId : Nat)
    (now : Int) : Except PipelineError CVRecord :=
  let extractedText := env.extractedText
  if isTextSufficient extractedText then
    match env.textResult with
    | .error e => .error (.service e)
    | .ok d => .ok (builtCVRecord d env originalFilename newId now .text)
  else
    match visionAttempt env with
    | .ok d => .ok (builtCVRecord d env originalFilename newId now .vision)
    | .error _ =>
      if (trimList extractedText.data).length > 0 then
        match env.textResult with
        | .error e => .error (.service e)
        | .ok d => .ok (builtCVRecord d env originalFilename newId now .text_fallback)
      else .error .bothFailed

/-! ### Cosine similarity (`openaiService.calculateCosineSimilarity`, lines 852–857)

```js
calculateCosineSimilarity(vecA, vecB) {
  const dotProduct = vecA.reduce((sum, a, i) => sum + a * vecB[i], 0);
  const magnitudeA = Math.sqrt(vecA.reduce((sum, a) => sum + a * a, 0));
  const magnitudeB = Math.sqrt(vecB.reduce((sum, b) => sum + b * b, 0));
  return dotProduct / (magnitudeA * magnitudeB);
}
```

Vector components are exact rationals; the square roots live in `ℝ`.  When both
magnitudes are defined and their product is 0 the JS division is `0 / 0 = NaN`
(a zero vector has dot product 0 with anything), modelled as `none`. -/

/-- `vecA.reduce((sum, a, i) => sum + a * vecB[i], 0)` for vectors of equal length:
a fold over the zipped components. -/
def dotProduct (vecA vecB : List ℚ) : ℚ :=
  (vecA.zip vecB).foldl (fun sum p => sum + p.1 * p.2) 0

/-- `vec.reduce((sum, a) => sum + a * a, 0)`: the squared magnitude (the quantity
under the square root). -/
def magnitudeSq (vec : List ℚ) : ℚ :=
  vec.foldl (fun sum a => sum + a * a) 0

/-- `openaiService.calculateCosineSimilarity`.  `none` is the JS `NaN` produced when
the denominator is zero (either vector has magnitude 0). -/
noncomputable def calculateCosineSimilarity (vecA vecB : List ℚ) : Option ℝ :=
  if magnitudeSq vecA * magnitudeSq vecB = 0 then none
  else
    some ((dotProduct vecA vecB : ℝ) /
      (Real.sqrt (magnitudeSq vecA) * Real.sqrt (magnitudeSq vecB)))

/-! ### Regex primitives for `parseSearchQuery`

`openaiService.parseSearchQuery` (lines 864–908) uses five concrete regexes.  Each is
embedded as a bespoke matcher over `List Char` with JS regex semantics: leftmost
match, case-insensitive literals, greedy character-class runs, lazy word-sequence
groups, ordered alternation.  A matcher `matchXAt s` attempts a match anchored at the
start of `s` and returns the remaining suffix plus the captured group. -/

/-- Maximal run of characters satisfying `p` (a greedy `[..]+` / `[..]*` step):
returns the run and the remaining suffix. -/
def takeRun (p : Char → Bool) : List Char → List Char × List Char
  | [] => ([], [])
  | c :: cs =>
    if p c then
      let r := takeRun p cs
      (c :: r.1, r.2)
    else ([], c :: cs)

/-- Case-insensitive literal: if `k` is a prefix of `s` up to case, the suffix after
it. -/
def litI : List Char → List Char → Option (List Char)
  | [], s => some s
  | _ :: _, [] => none
  | k :: ks, c :: cs => if charIEq k c then litI ks cs else none

/-- `\s+`: one or more whitespace characters, greedily. -/
def ws1 (s : List Char) : Option (List Char) :=
  if (takeRun isJsWs s).1.isEmpty then none else some (takeRun isJsWs s).2

/-- `\w+`: one or more word characters, greedily; returns (word, suffix). -/
def wordRun1 (s : List Char) : Option (List Char × List Char) :=
  if (takeRun isJsWordChar s).1.isEmpty then none else some (takeRun isJsWordChar s)

/-- `[\d.]+`: one or more digit-or-dot characters, greedily. -/
def digitDotRun1 (s : List Char) : Option (List Char × List Char) :=
  if (takeRun isDigitDot s).1.isEmpty then none else some (takeRun isDigitDot s)

/-- `[^,.]+`: one or more characters other than comma and period, greedily. -/
def notCommaDotRun1 (s : List Char) : Option (List Char × List Char) :=
  if (takeRun (fun c => !(c = ',' || c = '.')) s).1.isEmpty then none
  else some (takeRun (fun c => !(c = ',' || c = '.')) s)

theorem takeRun_length (p : Char → Bool) (s : List Char) :
    (takeRun p s).1.length + (takeRun p s).2.length = s.length := by
  induction s with
  | nil => simp [takeRun]
  | cons c cs ih =>
    by_cases h : p c
    · simp only [takeRun, h, if_true, List.length_cons]
      omega
    · simp [takeRun, h]

theorem litI_length_le {k s r : List Char} (h : litI k s = some r) :
    r.length + k.length ≤ s.length := by
  induction k generalizing s with
  | nil => simp [litI] at h; simp [h]
  | cons kc ks ih =>
    match s with
    | [] => simp [litI] at h
    | c :: cs =>
      simp only [litI] at h
      split at h
      · have := ih h
        simp only [List.length_cons]
        omega
      · exact absurd h (by simp)

theorem ws1_length_lt {s r : List Char} (h : ws1 s = some r) : r.length < s.length := by
  unfold ws1 at h
  by_cases hne : (takeRun isJsWs s).1.isEmpty
  · rw [if_pos hne] at h; exact absurd h (by simp)
  · rw [if_neg hne] at h
    injection h with h
    subst h
    have hl := takeRun_length isJsWs s
    have hz : (takeRun isJsWs s).1.length ≠ 0 := by
      simpa [List.isEmpty_iff, ← List.length_eq_zero] using hne
    omega

theorem wordRun1_length_lt {s w r : List Char} (h : wordRun1 s = some (w, r)) :
    r.length < s.length := by
  unfold wordRun1 at h
  by_cases hne : (takeRun isJsWordChar s).1.isEmpty
  · rw [if_pos hne] at h; exact absurd h (by simp)
  · rw [if_neg hne] at h
    injection h with h
    have hr : (takeRun isJsWordChar s).2 = r := congrArg Prod.snd h
    subst hr
    have hl := takeRun_length isJsWordChar s
    have hz : (takeRun isJsWordChar s).1.length ≠ 0 := by
      simpa [List.isEmpty_iff, ← List.length_eq_zero] using hne
    omega

theorem digitDotRun1_length_lt {s w r : List Char} (h : digitDotRun1 s = some (w, r)) :
    r.length < s.length := by
  unfold digitDotRun1 at h
  by_cases hne : (takeRun isDigitDot s).1.isEmpty
  · rw [if_pos hne] at h; exact absurd h (by simp)
  · rw [if_neg hne] at h
    injection h with h
    have hr : (takeRun isDigitDot s).2 = r := congrArg Prod.snd h
    subst hr
    have hl := takeRun_length isDigitDot s
    have hz : (takeRun isDigitDot s).1.length ≠ 0 := by
      simpa [List.isEmpty_iff, ← List.length_eq_zero] using hne
    omega

theorem notCommaDotRun1_length_lt {s w r : List Char} (h : notCommaDotRun1 s = some (w, r)) :
    r.length < s.length := by
  unfold notCommaDotRun1 at h
  by_cases hne : (takeRun (fun c => !(c = ',' || c = '.')) s).1.isEmpty
  · rw [if_pos hne] at h; exact absurd h (by simp)
  · rw [if_neg hne] at h
    injection h with h
    have hr : (takeRun (fun c => !(c = ',' || c = '.')) s).2 = r := congrArg Prod.snd h
    subst hr
    have hl := takeRun_length (fun c => !(c = ',' || c = '.')) s
    have hz : (takeRun (fun c => !(c = ',' || c = '.')) s).1.length ≠ 0 := by
      simpa [List.isEmpty_iff, ← List.length_eq_zero] using hne
    omega


/-! #### Pattern 1: `/gpa\s+(above|over|greater than|>)\s+([\d.]+)/i` -/

/-- The `\s+([\d.]+)` tail shared by all four GPA alternatives: returns
(suffix after the match, capture group 2). -/
def gpaTail (s3 : List Char) : Option (List Char × List Char) :=
  match ws1 s3 with
  | none => none
  | some s4 =>
    match digitDotRun1 s4 with
    | none => none
    | some (num, rest) => some (rest, num)

/-- Anchored match of the GPA regex: (suffix, capture group 2). -/
def matchGpaAt (s : List Char) : Option (List Char × List Char) :=
  match litI "gpa".data s with
  | none => none
  | some s1 =>
    match ws1 s1 with
    | none => none
    | some s2 =>
      (match litI "above".data s2 with
       | some s3 => gpaTail s3
       | none => none) <|>
      (match litI "over".data s2 with
       | some s3 => gpaTail s3
       | none => none) <|>
      (match litI "greater than".data s2 with
       | some s3 => gpaTail s3
       | none => none) <|>
      (match litI ">".data s2 with
       | some s3 => gpaTail s3
       | none => none)

/-! #### Pattern 2: `/work(?:ed)?\s+(?:in|at|for)\s+(\w+)/i` -/

/-- One preposition alternative followed by `\s+(\w+)`. -/
def companyPrepTail (p : List Char) (s3 : List Char) : Option (List Char × List Char) :=
  match litI p s3 with
  | none => none
  | some s4 =>
    match ws1 s4 with
    | none => none
    | some s5 =>
      match wordRun1 s5 with
      | none => none
      | some (w, rest) => some (rest, w)

/-- The part of the employer regex after `work(?:ed)?`. -/
def companyAfterWork (s2 : List Char) : Option (List Char × List Char) :=
  match ws1 s2 with
  | none => none
  | some s3 =>
    companyPrepTail "in".data s3 <|> companyPrepTail "at".data s3 <|>
      companyPrepTail "for".data s3

/-- Anchored match of the employer regex: (suffix, capture group 1).  The greedy
`(?:ed)?` tries the `ed` branch first and backtracks to the empty branch. -/
def matchCompanyAt (s : List Char) : Option (List Char × List Char) :=
  match litI "work".data s with
  | none => none
  | some s1 =>
    (match litI "ed".data s1 with
     | some s2 => companyAfterWork s2
     | none => none) <|> companyAfterWork s1

/-! #### Pattern 3: `/from\s+(\w+(?:\s+\w+)*?)(?:\s+with|\s+and|$)/i` -/

/-- The terminating group `(?:\s+with|\s+and|$)`: ordered alternation; returns the
suffix after the terminator. -/
def univTermin (s : List Char) : Option (List Char) :=
  (match ws1 s with
   | some s1 => litI "with".data s1
   | none => none) <|>
  (match ws1 s with
   | some s1 => litI "and".data s1
   | none => none) <|>
  (if s.isEmpty then some s else none)

/-- The lazy `(?:\s+\w+)*?` loop: starting right after a word of the capture, try the
terminator first (lazy), else consume one more `\s+\w+` unit.  Returns
(suffix at the capture's end, suffix after the terminator). -/
def univLoop (s : List Char) : Option (List Char × List Char) :=
  match univTermin s with
  | some rest => some (s, rest)
  | none =>
    match h1 : ws1 s with
    | none => none
    | some s1 =>
      match h2 : wordRun1 s1 with
      | none => none
      | some (_, s2) => univLoop s2
termination_by s.length
decreasing_by
  have a := ws1_length_lt h1
  have b := wordRun1_length_lt h2
  omega

/-- Anchored match of the institution regex: (suffix after terminator, capture
group 1 — the word sequence including the whitespace between its words). -/
def matchUniversityAt (s : List Char) : Option (List Char × List Char) :=
  match litI "from".data s with
  | none => none
  | some s1 =>
    match ws1 s1 with
    | none => none
    | some s2 =>
      match wordRun1 s2 with
      | none => none
      | some (_, s3) =>
        match univLoop s3 with
        | none => none
        | some (capEnd, rest) =>
          some (rest, s2.take (s2.length - capEnd.length))

/-! #### Pattern 4: `/(?:experience in|skilled in|knows|familiar with)\s+([^,.]+)/gi` -/

/-- The `\s+([^,.]+)` tail shared by the four skill-keyword alternatives. -/
def skillATail (s1 : List Char) : Option (List Char × List Char) :=
  match ws1 s1 with
  | none => none
  | some s2 =>
    match notCommaDotRun1 s2 with
    | none => none
    | some (cap, rest) => some (rest, cap)

/-- Anchored match of the first skills regex: (suffix, capture group 1). -/
def matchSkillAAt (s : List Char) : Option (List Char × List Char) :=
  (match litI "experience in".data s with
   | some s1 => skillATail s1
   | none => none) <|>
  (match litI "skilled in".data s with
   | some s1 => skillATail s1
   | none => none) <|>
  (match litI "knows".data s with
   | some s1 => skillATail s1
   | none => none) <|>
  (match litI "familiar with".data s with
   | some s1 => skillATail s1
   | none => none)

/-! #### Pattern 5: `/(\w+(?:\s+\w+)*?)\s+(?:developer|engineer|specialist)/gi` -/

/-- The `\s+(?:developer|engineer|specialist)` terminator; returns the suffix after
the role word. -/
def roleTermin (s : List Char) : Option (List Char) :=
  match ws1 s with
  | none => none
  | some s1 =>
    litI "developer".data s1 <|> litI "engineer".data s1 <|> litI "specialist".data s1

/-- The lazy `(?:\s+\w+)*?` loop of the role regex, analogous to `univLoop`. -/
def roleLoop (s : List Char) : Option (List Char × List Char) :=
  match roleTermin s with
  | some rest => some (s, rest)
  | none =>
    match h1 : ws1 s with
    | none => none
    | some s1 =>
      match h2 : wordRun1 s1 with
      | none => none
      | some (_, s2) => roleLoop s2
termination_by s.length
decreasing_by
  have a := ws1_length_lt h1
  have b := wordRun1_length_lt h2
  omega

/-- Anchored match of the role regex: (suffix, capture group 1). -/
def matchSkillBAt (s : List Char) : Option (List Char × List Char) :=
  match wordRun1 s with
  | none => none
  | some (_, s1) =>
    match roleLoop s1 with
    | none => none
    | some (capEnd, rest) =>
      some (rest, s.take (s.length - capEnd.length))

/-! #### Leftmost search, `matchAll`, and `String.replace` -/

/-- Leftmost match: try the anchored matcher at offsets 0, 1, 2, … (the regex
engine's scan).  Returns the offset and the matcher's result. -/
def findAt {γ : Type} (m : List Char → Option γ) : List Char → Option (Nat × γ)
  | [] =>
    match m [] with
    | some r => some (0, r)
    | none => none
  | c :: t =>
    match m (c :: t) with
    | some r => some (0, r)
    | none =>
      match findAt m t with
      | some (i, r) => some (i + 1, r)
      | none => none

/-- `query.match(re)` for a non-global regex: the matched text (`match[0]`) and the
capture group. -/
def findPattern (m : List Char → Option (List Char × List Char)) (s : List Char) :
    Option (List Char × List Char) :=
  match findAt m s with
  | none => none
  | some (i, (rest, cap)) => some ((s.drop i).take (s.length - i - rest.length), cap)

/-- A successful anchored match consumes at least one character (needed for
termination of `matchAll`). -/
def Consuming (m : List Char → Option (List Char × List Char)) : Prop :=
  ∀ s rest cap, m s = some (rest, cap) → rest.length < s.length

theorem option_orElse_eq_some {α : Type} {a b : Option α} {x : α}
    (h : (a <|> b) = some x) : a = some x ∨ (a = none ∧ b = some x) := by
  cases a <;> simp_all

theorem litI_some_length_lt {k s r : List Char} (hk : k ≠ [])
    (h : litI k s = some r) : r.length < s.length := by
  have := litI_length_le h
  have : k.length ≠ 0 := by simpa [← List.length_eq_zero] using hk
  omega

theorem gpaTail_consumes {s rest cap : List Char} (h : gpaTail s = some (rest, cap)) :
    rest.length ≤ s.length := by
  unfold gpaTail at h
  cases h1 : ws1 s with
  | none => rw [h1] at h; simp at h
  | some s4 =>
    rw [h1] at h
    dsimp only at h
    cases h2 : digitDotRun1 s4 with
    | none => rw [h2] at h; simp at h
    | some p =>
      obtain ⟨num, r⟩ := p
      rw [h2] at h
      simp only [Option.some.injEq, Prod.mk.injEq] at h
      obtain ⟨hr, -⟩ := h
      subst hr
      have ha := ws1_length_lt h1
      have hb := digitDotRun1_length_lt h2
      omega

theorem skillATail_consumes {s rest cap : List Char}
    (h : skillATail s = some (rest, cap)) : rest.length < s.length := by
  unfold skillATail at h
  cases h1 : ws1 s with
  | none => rw [h1] at h; simp at h
  | some s2 =>
    rw [h1] at h
    dsimp only at h
    cases h2 : notCommaDotRun1 s2 with
    | none => rw [h2] at h; simp at h
    | some p =>
      obtain ⟨c, r⟩ := p
      rw [h2] at h
      simp only [Option.some.injEq, Prod.mk.injEq] at h
      obtain ⟨hr, -⟩ := h
      subst hr
      have ha := ws1_length_lt h1
      have hb := notCommaDotRun1_length_lt h2
      omega

theorem matchSkillAAt_consumes : Consuming matchSkillAAt := by
  intro s rest cap h
  unfold matchSkillAAt at h
  rcases option_orElse_eq_some h with h | ⟨-, h⟩
  · cases hl : litI "experience in".data s with
    | none => rw [hl] at h; simp at h
    | some s1 =>
      rw [hl] at h
      have ha := litI_some_length_lt (by simp) hl
      have hb := skillATail_consumes h
      omega
  · rcases option_orElse_eq_some h with h | ⟨-, h⟩
    · cases hl : litI "skilled in".data s with
      | none => rw [hl] at h; simp at h
      | some s1 =>
        rw [hl] at h
        have ha := litI_some_length_lt (by simp) hl
        have hb := skillATail_consumes h
        omega
    · rcases option_orElse_eq_some h with h | ⟨-, h⟩
      · cases hl : litI "knows".data s with
        | none => rw [hl] at h; simp at h
        | some s1 =>
          rw [hl] at h
          have ha := litI_some_length_lt (by simp) hl
          have hb := skillATail_consumes h
          omega
      · cases hl : litI "familiar with".data s with
        | none => rw [hl] at h; simp at h
        | some s1 =>
          rw [hl] at h
          have ha := litI_some_length_lt (by simp) hl
          have hb := skillATail_consumes h
          omega

theorem roleTermin_consumes {s rest : List Char} (h : roleTermin s = some rest) :
    rest.length < s.length := by
  unfold roleTermin at h
  cases h1 : ws1 s with
  | none => rw [h1] at h; simp at h
  | some s1 =>
    rw [h1] at h
    dsimp only at h
    have hw := ws1_length_lt h1
    rcases option_orElse_eq_some h with h | ⟨-, h⟩
    · have := litI_length_le h; omega
    · rcases option_orElse_eq_some h with h | ⟨-, h⟩
      · have := litI_length_le h; omega
      · have := litI_length_le h; omega

theorem roleLoop_consumes {s capEnd rest : List Char}
    (h : roleLoop s = some (capEnd, rest)) : rest.length < s.length := by
  induction s using roleLoop.induct generalizing capEnd rest with
  | case1 x r hterm =>
    rw [roleLoop, hterm] at h
    simp only [Option.some.injEq, Prod.mk.injEq] at h
    obtain ⟨-, hr⟩ := h
    subst hr
    exact roleTermin_consumes hterm
  | case2 x hterm h1 =>
    rw [roleLoop, hterm] at h
    dsimp only at h
    rw [h1] at h
    simp at h
  | case3 x hterm s1 h1 h2 =>
    rw [roleLoop, hterm] at h
    dsimp only at h
    rw [h1] at h
    dsimp only at h
    rw [h2] at h
    simp at h
  | case4 x hterm s1 h1 w s2 h2 ih =>
    rw [roleLoop, hterm] at h
    dsimp only at h
    rw [h1] at h
    dsimp only at h
    rw [h2] at h
    dsimp only at h
    have ha := ws1_length_lt h1
    have hb := wordRun1_length_lt h2
    have hc := ih h
    omega

theorem matchSkillBAt_consumes : Consuming matchSkillBAt := by
  intro s rest cap h
  unfold matchSkillBAt at h
  cases h1 : wordRun1 s with
  | none => rw [h1] at h; simp at h
  | some p =>
    obtain ⟨w, s1⟩ := p
    rw [h1] at h
    dsimp only at h
    cases h2 : roleLoop s1 with
    | none => rw [h2] at h; simp at h
    | some q =>
      obtain ⟨capEnd, r⟩ := q
      rw [h2] at h
      simp only [Option.some.injEq, Prod.mk.injEq] at h
      obtain ⟨hr, -⟩ := h
      subst hr
      have ha := wordRun1_length_lt h1
      have hb := roleLoop_consumes h2
      omega

theorem findAt_rest_length_lt {m : List Char → Option (List Char × List Char)}
    (hm : Consuming m) {s : List Char} {i : Nat} {rest cap : List Char}
    (h : findAt m s = some (i, (rest, cap))) : rest.length < s.length := by
  induction s generalizing i rest cap with
  | nil =>
    rw [findAt] at h
    cases hmm : m [] with
    | some r =>
      obtain ⟨r1, r2⟩ := r
      have := hm [] r1 r2 hmm
      simp at this
    | none => rw [hmm] at h; simp at h
  | cons c t ih =>
    rw [findAt] at h
    cases hmm : m (c :: t) with
    | some r =>
      obtain ⟨r1, r2⟩ := r
      rw [hmm] at h
      simp only [Option.some.injEq, Prod.mk.injEq] at h
      obtain ⟨-, h2, -⟩ := h
      subst h2
      exact hm (c :: t) r1 r2 hmm
    | none =>
      rw [hmm] at h
      dsimp only at h
      cases hf : findAt m t with
      | none => rw [hf] at h; simp at h
      | some p =>
        obtain ⟨j, r1, r2⟩ := p
        rw [hf] at h
        simp only [Option.some.injEq, Prod.mk.injEq] at h
        obtain ⟨-, h2, h3⟩ := h
        subst h2
        subst h3
        have := ih hf
        simp only [List.length_cons]
        omega

/-- `query.matchAll(re)` for a global regex: successive non-overlapping leftmost
matches, each as (`match[0]`, capture group 1).  The scan resumes right after each
match (`lastIndex`); `hm` witnesses that matches are nonempty, which the two global
skill regexes satisfy. -/
def matchAll (m : List Char → Option (List Char × List Char)) (hm : Consuming m)
    (s : List Char) : List (List Char × List Char) :=
  match h : findAt m s with
  | none => []
  | some (i, (rest, cap)) =>
    ((s.drop i).take (s.length - i - rest.length), cap) :: matchAll m hm rest
termination_by s.length
decreasing_by exact findAt_rest_length_lt hm h

/-- `str.replace(pat, '')` for a string pattern: remove the first occurrence of
`pat` (the string is returned unchanged when `pat` does not occur). -/
def replaceFirst (s pat : List Char) : List Char :=
  match s with
  | [] => []
  | c :: t => if pat.isPrefixOf (c :: t) then (c :: t).drop pat.length
              else c :: replaceFirst t pat

/-! #### `parseFloat` and the parsed filter set -/

/-- Decimal digit. -/
def isDigitC (c : Char) : Bool := '0' ≤ c && c ≤ '9'

/-- Numeric value of a digit string. -/
def digitsToNat (ds : List Char) : Nat :=
  ds.foldl (fun n c => 10 * n + (c.toNat - 48)) 0

/-- JS `parseFloat` restricted to the strings the GPA regex can capture
(`[\d.]+`): integer digits, then optionally a dot and fraction digits; anything
after a second dot is ignored; a string with no leading digits other than `".<digits>"`
is `NaN` (`none`). -/
def jsParseFloat (s : List Char) : Option ℚ :=
  match hip : takeRun isDigitC s with
  | (ip, '.' :: rest2) =>
    let fp := (takeRun isDigitC rest2).1
    if ip.isEmpty && fp.isEmpty then none
    else some ((digitsToNat ip : ℚ) + mkRat (digitsToNat fp) (10 ^ fp.length))
  | (ip, _) => if ip.isEmpty then none else some (digitsToNat ip : ℚ)

/-- The filter set produced by `parseSearchQuery`.  `gpa = some v` models
`filters.gpa = { $gte: v }` (with `v = none` for a `NaN` bound); `skills = []` models
the absent `filters.skills` (the code only creates the array when it pushes into it,
and `buildDatabaseQuery` guards on it being non-empty). -/
structure SearchFilters where
  gpa : Option (Option ℚ)
  company : Option String
  university : Option String
  skills : List String
  deriving Repr, DecidableEq

/-- No filter was extracted. -/
def SearchFilters.isEmpty (f : SearchFilters) : Bool :=
  f.gpa.isNone && f.company.isNone && f.university.isNone && f.skills.isEmpty

/-!
`openaiService.parseSearchQuery` (lines 864–908):

```js
parseSearchQuery(query) {
  const filters = {};
  let semanticQuery = query;
  const gpaMatch = query.match(/gpa\s+(above|over|greater than|>)\s+([\d.]+)/i);
  if (gpaMatch) {
    filters.gpa = { $gte: parseFloat(gpaMatch[2]) };
    semanticQuery = semanticQuery.replace(gpaMatch[0], '').trim();
  }
  const companyMatch = query.match(/work(?:ed)?\s+(?:in|at|for)\s+(\w+)/i);
  if (companyMatch) {
    filters.company = companyMatch[1];
    semanticQuery = semanticQuery.replace(companyMatch[0], '').trim();
  }
  const universityMatch = query.match(/from\s+(\w+(?:\s+\w+)*?)(?:\s+with|\s+and|$)/i);
  if (universityMatch) {
    filters.university = universityMatch[1].trim();
    semanticQuery = semanticQuery.replace(universityMatch[0], '').trim();
  }
  const skillPatterns = [
    /(?:experience in|skilled in|knows|familiar with)\s+([^,.]+)/gi,
    /(\w+(?:\s+\w+)*?)\s+(?:developer|engineer|specialist)/gi
  ];
  skillPatterns.forEach(pattern => {
    const matches = query.matchAll(pattern);
    for (const match of matches) {
      if (!filters.skills) filters.skills = [];
      filters.skills.push(match[1].trim());
      semanticQuery = semanticQuery.replace(match[0], '').trim();
    }
  });
  semanticQuery = semanticQuery.replace(/\s+/g, ' ').trim();
  return { filters, semanticQuery };
}
```

Every pattern is matched against the original `query`; each matched `match[0]` is
removed from the evolving `semanticQuery` (first occurrence). -/

/-- `openaiService.parseSearchQuery`. -/
def parseSearchQuery (query : String) : SearchFilters × String :=
  let q := query.data
  let gpaMatch := findPattern matchGpaAt q
  let sq1 := match gpaMatch with
    | some mc => trimList (replaceFirst q mc.1)
    | none => q
  let companyMatch := findPattern matchCompanyAt q
  let sq2 := match companyMatch with
    | some mc => trimList (replaceFirst sq1 mc.1)
    | none => sq1
  let universityMatch := findPattern matchUniversityAt q
  let sq3 := match universityMatch with
    | some mc => trimList (replaceFirst sq2 mc.1)
    | none => sq2
  let skillMatches :=
    matchAll matchSkillAAt matchSkillAAt_consumes q ++
      matchAll matchSkillBAt matchSkillBAt_consumes q
  let sq4 := skillMatches.foldl (fun sq mc => trimList (replaceFirst sq mc.1)) sq3
  ({ gpa := gpaMatch.map (fun mc => jsParseFloat mc.2)
     company := companyMatch.map (fun mc => (⟨mc.2⟩ : String))
     university := universityMatch.map (fun mc => (⟨trimList mc.2⟩ : String))
     skills := skillMatches.map (fun mc => (⟨trimList mc.2⟩ : String)) },
   ⟨trimList (collapseWs sq4)⟩)

/-! ### Database filtering (`openaiService.buildDatabaseQuery`, lines 915–945)

```js
buildDatabaseQuery(filters) {
  const dbQuery = { embedding: { $exists: true } };
  if (filters.gpa) dbQuery['education.gpa'] = filters.gpa;
  if (filters.company) dbQuery['experience.company'] = { $regex: new RegExp(filters.company, 'i') };
  if (filters.university) dbQuery['education.institution'] = { $regex: new RegExp(filters.university, 'i') };
  if (filters.skills && filters.skills.length > 0)
    dbQuery['skills.skills'] = { $in: filters.skills.map(skill => new RegExp(skill, 'i')) };
  return dbQuery;
}
```
-/

/-- The mongo query object built from the parsed filters.  The `embedding` clause is
unconditional. -/
structure DbQuery where
  embeddingExists : Bool
  gpa : Option (Option ℚ)
  company : Option String
  university : Option String
  skills : List String
  deriving Repr, DecidableEq

/-- `openaiService.buildDatabaseQuery`. -/
def buildDatabaseQuery (filters : SearchFilters) : DbQuery where
  embeddingExists := true
  gpa := filters.gpa
  company := filters.company
  university := filters.university
  skills := filters.skills

/-- Case-insensitive substring test: `new RegExp(pat, 'i').test(hay)` for the
metacharacter-free patterns the parser produces (`\w+` captures). -/
def containsIgnoreCase (pat hay : List Char) : Bool :=
  match hay with
  | [] => (litI pat []).isSome
  | _ :: t => (litI pat hay).isSome || containsIgnoreCase pat t

/-- Evaluation of the mongo query against one document (`CVData.find(dbQuery)`
membership).  Array dotted paths match when some array element matches; a `$gte`
comparison against the `NaN` bound matches no document; `$in` with regexes matches
when some stored skill string matches some of the regexes. -/
def matchesDbQuery (q : DbQuery) (cv : CVRecord) : Bool :=
  (!q.embeddingExists || cv.embedding.isSome) &&
  (match q.gpa with
   | none => true
   | some none => false
   | some (some bound) =>
     cv.education.any (fun e =>
       match e.gpa with
       | some g => bound ≤ g
       | none => false)) &&
  (match q.company with
   | none => true
   | some c => cv.experience.any (fun e => containsIgnoreCase c.data e.company.data)) &&
  (match q.university with
   | none => true
   | some u => cv.education.any (fun e => containsIgnoreCase u.data e.institution.data)) &&
  (q.skills.isEmpty ||
    cv.skills.any (fun g => g.skills.any (fun sk =>
      q.skills.any (fun pat => containsIgnoreCase pat.data sk.data))))

/-! ### Hybrid search (`openaiService.searchCVs`, lines 953–1024)

```js
async searchCVs(query, limit = 10) {
  const { filters, semanticQuery } = this.parseSearchQuery(query);
  const dbQuery = this.buildDatabaseQuery(filters);
  const filteredCVs = await CVData.find(dbQuery);
  if (!semanticQuery || semanticQuery.length < 3 || filteredCVs.length === 0) {
    return filteredCVs.slice(0, limit).map(cv => ({ ...cv.toObject(), score: 1.0, matchType: 'filter' }));
  }
  const queryEmbedding = await this.getEmbeddings(semanticQuery);
  const scoredCVs = filteredCVs.map(cv => ({ cv, score: this.calculateCosineSimilarity(queryEmbedding, cv.embedding) }));
  return scoredCVs.sort((a, b) => b.score - a.score).slice(0, limit)
    .map(({ cv, score }) => ({ ...cv.toObject(), score, matchType: 'hybrid' }));
}
```

The embedding client is the oracle `getEmb`.  `Array.prototype.sort` is a stable sort
driven by the comparator `(a, b) => b.score - a.score` (a `NaN` comparator value acts
like 0, i.e. keeps the relative order), modelled with `List.mergeSort`, which is
stable.  The falsy test `!semanticQuery` is subsumed by `length < 3`. -/

/-- The `matchType` tag annotated on search results. -/
inductive MatchType where
  | filter
  | hybrid
  deriving Repr, DecidableEq

/-- One element of the list `searchCVs` resolves with. -/
structure SearchResultItem where
  cv : CVRecord
  score : Option ℝ
  matchType : MatchType

/-- `a` may stay before `b` under the comparator `(a, b) => b.score - a.score`:
descending by score; an undefined (`NaN`) score compares like equality. -/
noncomputable def scoreDescLe (a b : CVRecord × Option ℝ) : Bool :=
  match a.2, b.2 with
  | some x, some y => decide (y ≤ x)
  | _, _ => true

/-- `openaiService.searchCVs`. -/
noncomputable def searchCVs (getEmb : String → List ℚ) (store : List CVRecord)
    (query : String) (limit : Nat) : List SearchResultItem :=
  let parsed := parseSearchQuery query
  let semanticQuery := parsed.2
  let dbQuery := buildDatabaseQuery parsed.1
  let filteredCVs := store.filter (matchesDbQuery dbQuery)
  if semanticQuery.length < 3 || filteredCVs.length = 0 then
    (filteredCVs.take limit).map (fun cv =>
      { cv := cv, score := some 1, matchType := .filter })
  else
    let queryEmbedding := getEmb semanticQuery
    let scoredCVs := filteredCVs.map (fun cv =>
      (cv, calculateCosineSimilarity queryEmbedding (cv.embedding.getD [])))
    ((scoredCVs.mergeSort scoreDescLe).take limit).map (fun p =>
      { cv := p.1, score := p.2, matchType := .hybrid })

/-! ### Claim C1 — cache validity predicate -/

/-- Placeholder `details` value for concrete test records. -/
def zeroDetails : MatchDetails :=
  { skills := ⟨0, ""⟩, experience := ⟨0, ""⟩, education := ⟨0, ""⟩, overall := ⟨0, ""⟩ }

/-- The cache-validity predicate exactly as the claim states it (strict TTL bound
`now < updatedAt + cacheTime`); to be compared against `isCacheValid` from the
source. -/
def cacheValidClaim (m : Option MatchRecord) (cv : CVRecord) (job : JobRecord)
    (now : Int) : Prop :=
  match m with
  | none => False
  | some r =>
    cvUpdateTime cv ≤ r.cvVersion ∧ jobUpdateTime job ≤ r.jobVersion ∧
      now < r.updatedAt + r.cacheTime * 1000

/-- The claim's predicate with the TTL bound corrected to the non-strict comparison
the source implements (`new Date() > cacheExpiryTime` invalidates, so `now` equal to
the expiry instant is still valid). -/
def cacheValidAmended (m : Option MatchRecord) (cv : CVRecord) (job : JobRecord)
    (now : Int) : Prop :=
  match m with
  | none => False
  | some r =>
    cvUpdateTime cv ≤ r.cvVersion ∧ jobUpdateTime job ≤ r.jobVersion ∧
      now ≤ r.updatedAt + r.cacheTime * 1000

/-- A record whose TTL window closed exactly at `now = 1000`. -/
def c1Match : MatchRecord :=
  { cvId := 1, jobId := 2, score := 50, details := zeroDetails, recommendations := [],
    cvVersion := 0, jobVersion := 0, createdAt := 0, updatedAt := 0, cacheTime := 1 }

/-- A candidate extracted at time 0 with no `updatedAt`. -/
def c1CV : CVRecord :=
  { id := 1, fileName := "a.pdf", extractedAt := 0, updatedAt := none,
    extractionMethod := .text, education := [], experience := [], skills := [],
    rawText := "", embedding := none, searchableText := "" }

/-- A job created at time 0 with no `updatedAt`. -/
def c1Job : JobRecord :=
  { id := 2, title := "t", company := "c", createdAt := 0, updatedAt := none,
    active := true }

/-- C1, counterexample: at the exact expiry instant (`now = updatedAt + cacheTime`
seconds) the source judges the record VALID, while the claim's biconditional with its
strict `now < updatedAt + cacheTime` bound judges it invalid — the claimed
"if and only if" fails at this input. -/
theorem c1_cache_predicate_counterexample :
    isCacheValid (some c1Match) c1CV c1Job 1000 = true ∧
      ¬ cacheValidClaim (some c1Match) c1CV c1Job 1000 := by
  constructor
  · decide
  · intro h
    have h3 : (1000:Int) < c1Match.updatedAt + c1Match.cacheTime * 1000 := h.2.2
    simp [c1Match] at h3

/-- C1, amended: `isCacheValid` judges a record valid iff it exists for the pair,
its `cvVersion` is at least the candidate's current modification timestamp, its
`jobVersion` is at least the job's, and the TTL has not expired with the non-strict
bound `now ≤ updatedAt + cacheTime` seconds; in particular a record with
`updatedAt = now - cacheTime - 1s` is judged invalid regardless of version match. -/
theorem c1_cache_predicate_amended :
    ∀ (m : Option MatchRecord) (cv : CVRecord) (job : JobRecord) (now : Int),
      (isCacheValid m cv job now = true ↔ cacheValidAmended m cv job now) ∧
      (∀ r : MatchRecord, m = some r → r.updatedAt = now - r.cacheTime * 1000 - 1000 →
        isCacheValid m cv job now = false) := by
  intro m cv job now
  constructor
  · cases m with
    | none => simp [isCacheValid, cacheValidAmended]
    | some r =>
      simp only [isCacheValid, cacheValidAmended]
      constructor
      · intro h
        split at h
        · exact absurd h (by simp)
        · rename_i hv
          split at h
          · exact absurd h (by simp)
          · rename_i ht
            simp only [Bool.or_eq_true, decide_eq_true_eq, not_or] at hv
            push_neg at hv ht
            omega
      · intro ⟨h1, h2, h3⟩
        have hv : ¬(r.cvVersion < cvUpdateTime cv || r.jobVersion < jobUpdateTime job) = true := by
          simp only [Bool.or_eq_true, decide_eq_true_eq, not_or]
          omega
        rw [if_neg hv, if_neg (by simpa using not_lt.mpr h3)]
  · intro r hm hexp
    subst hm
    simp only [isCacheValid]
    have hgt : now > r.updatedAt + r.cacheTime * 1000 := by omega
    split
    · rfl
    · simp [hgt]

/-- C1 amended, witness: a record with `updatedAt = now - cacheTime - 1s`
(`now = 5000`, `cacheTime = 1`s, `updatedAt = 3000`) is invalid. -/
theorem c1_cache_predicate_amended_witness :
    isCacheValid (some { c1Match with updatedAt := 3000 }) c1CV c1Job 5000 = false :=
  (c1_cache_predicate_amended (some { c1Match with updatedAt := 3000 }) c1CV c1Job
    5000).2 { c1Match with updatedAt := 3000 } rfl (by decide)

/-! ### Claims C2 and C10 — extraction pipeline -/

/-- Every successfully processed document has the shape `builtCVRecord`: in
particular no `updatedAt` field (the schema defines none) and `extractedAt = now`
(the schema default). -/
theorem processCVFile_ok_shape {env : PipelineEnv} {fn : String} {newId : Nat}
    {now : Int} {cvrec : CVRecord}
    (h : processCVFile env fn newId now = .ok cvrec) :
    cvrec.updatedAt = none ∧ cvrec.extractedAt = now := by
  simp only [processCVFile] at h
  by_cases hsuff : isTextSufficient env.extractedText
  · rw [if_pos hsuff] at h
    cases ht : env.textResult with
    | error e => rw [ht] at h; simp at h
    | ok d =>
      rw [ht] at h
      simp only [Except.ok.injEq] at h
      subst h
      exact ⟨rfl, rfl⟩
  · rw [if_neg hsuff] at h
    cases hv : visionAttempt env with
    | ok d =>
      rw [hv] at h
      simp only [Except.ok.injEq] at h
      subst h
      exact ⟨rfl, rfl⟩
    | error e =>
      rw [hv] at h
      dsimp only at h
      split at h
      · cases ht : env.textResult with
        | error e2 => rw [ht] at h; simp at h
        | ok d =>
          rw [ht] at h
          simp only [Except.ok.injEq] at h
          subst h
          exact ⟨rfl, rfl⟩
      · simp at h

/-- C10: the candidate modification timestamp consulted by the cache check is
`cv.updatedAt || cv.extractedAt`; every record the extraction pipeline persists has
no `updatedAt`, so its modification timestamp is its extraction time — as is any
later edit of its content fields that leaves `updatedAt` unset — and the CV-version
conjunct of the validity check passes for any MatchRecord with
`cvVersion ≥ extractedAt`; the upsert writes exactly this timestamp into
`cvVersion`. -/
theorem c10_cv_version_is_extraction_time :
    ∀ (env : PipelineEnv) (fn : String) (newId : Nat) (now : Int) (cvrec : CVRecord),
      processCVFile env fn newId now = .ok cvrec →
      cvrec.updatedAt = none ∧
      cvUpdateTime cvrec = cvrec.extractedAt ∧
      (∀ edited : CVRecord, edited.updatedAt = none →
        edited.extractedAt = cvrec.extractedAt →
        cvUpdateTime edited = cvrec.extractedAt) ∧
      (∀ m : MatchRecord, cvrec.extractedAt ≤ m.cvVersion →
        ¬(m.cvVersion < cvUpdateTime cvrec)) ∧
      (∀ (cv : CVRecord) (job : JobRecord) (r : MatchResult) (t : Int)
          (m0 : MatchRecord),
        (newMatchRecord cv job r t).cvVersion = cvUpdateTime cv ∧
        (updatedMatchRecord m0 cv job r t).cvVersion = cvUpdateTime cv) := by
  intro env fn newId now cvrec h
  obtain ⟨hup, _⟩ := processCVFile_ok_shape h
  have hcv : cvUpdateTime cvrec = cvrec.extractedAt := by
    unfold cvUpdateTime
    rw [hup]
    rfl
  refine ⟨hup, hcv, ?_, ?_, ?_⟩
  · intro edited h1 h2
    unfold cvUpdateTime
    rw [h1, h2]
    rfl
  · intro m hm
    rw [hcv]
    omega
  · intro cv job r t m0
    exact ⟨rfl, rfl⟩

/-- A 56-character, mostly alphanumeric extracted text (sufficient). -/
def wText : String := "The quick brown fox jumps over the lazy dog repeatedly."

/-- Concrete structured extraction result for witnesses. -/
def wStructured : StructuredData :=
  { education := [], experience := [], skills := [], searchable := "s" }

/-- Oracle bundle for a successful text-path run. -/
def wEnv : PipelineEnv :=
  { extractedText := wText, imagesResult := .ok [1], visionResult := .ok wStructured,
    textResult := .ok wStructured, embedding := [1] }

/-- The concrete run used by the pipeline witnesses. -/
theorem wEnv_run : processCVFile wEnv "f.pdf" 3 77 =
    .ok (builtCVRecord wStructured wEnv "f.pdf" 3 77 ExtractionMethod.text) := by
  have hs : isTextSufficient wEnv.extractedText = true := by decide
  simp only [processCVFile, hs, if_true]
  rfl

/-- C10, witness: a concrete successful pipeline run, whose persisted record's
modification timestamp equals its extraction time. -/
theorem c10_cv_version_is_extraction_time_witness :
    cvUpdateTime (builtCVRecord wStructured wEnv "f.pdf" 3 77 ExtractionMethod.text) =
      (builtCVRecord wStructured wEnv "f.pdf" 3 77 ExtractionMethod.text).extractedAt :=
  (c10_cv_version_is_extraction_time wEnv "f.pdf" 3 77
    (builtCVRecord wStructured wEnv "f.pdf" 3 77 ExtractionMethod.text) wEnv_run).2.1

/-- If image rendering fails or the vision extraction call fails, the `try` block
rejects. -/
theorem visionAttempt_error_of (env : PipelineEnv)
    (h : (∃ e, env.imagesResult = .error e) ∨ (∃ e, env.visionResult = .error e)) :
    ∃ e, visionAttempt env = .error e := by
  unfold visionAttempt
  cases hi : env.imagesResult with
  | error e => exact ⟨e, rfl⟩
  | ok imgs =>
    dsimp only
    by_cases hl : imgs.length = 0
    · rw [if_pos hl]
      exact ⟨_, rfl⟩
    · rw [if_neg hl]
      rcases h with ⟨e, he⟩ | ⟨e, he⟩
      · rw [he] at hi; exact absurd hi (by simp)
      · exact ⟨e, he⟩

/-- C2: on a PDF whose extracted text is insufficient but whose trimmed raw text is
non-empty, if image rendering or the vision call fails while the text-mode
extraction call succeeds, `processCVFile` completes and persists the record tagged
`text_fallback`; and the pipeline's terminal failure state is reached only when the
trimmed raw text is empty. -/
theorem c2_text_fallback :
    (∀ (env : PipelineEnv) (fn : String) (newId : Nat) (now : Int) (d : StructuredData),
      isTextSufficient env.extractedText = false →
      trimList env.extractedText.data ≠ [] →
      ((∃ e, env.imagesResult = .error e) ∨ (∃ e, env.visionResult = .error e)) →
      env.textResult = .ok d →
      processCVFile env fn newId now =
        .ok (builtCVRecord d env fn newId now .text_fallback) ∧
      (builtCVRecord d env fn newId now .text_fallback).extractionMethod =
        .text_fallback) ∧
    (∀ (env : PipelineEnv) (fn : String) (newId : Nat) (now : Int),
      processCVFile env fn newId now = .error .bothFailed →
      trimList env.extractedText.data = []) := by
  constructor
  · intro env fn newId now d hsuff htrim hfail htext
    refine ⟨?_, rfl⟩
    simp only [processCVFile]
    rw [if_neg (by simp [hsuff])]
    obtain ⟨e, hv⟩ := visionAttempt_error_of env hfail
    rw [hv]
    dsimp only
    rw [if_pos (by simpa [List.length_pos] using htrim), htext]
  · intro env fn newId now h
    simp only [processCVFile] at h
    by_cases hsuff : isTextSufficient env.extractedText
    · rw [if_pos hsuff] at h
      cases ht : env.textResult with
      | error e => rw [ht] at h; simp at h
      | ok d => rw [ht] at h; simp at h
    · rw [if_neg hsuff] at h
      cases hv : visionAttempt env with
      | ok d => rw [hv] at h; simp at h
      | error e =>
        rw [hv] at h
        dsimp only at h
        by_cases hlen : (trimList env.extractedText.data).length > 0
        · rw [if_pos hlen] at h
          cases ht : env.textResult with
          | error e2 => rw [ht] at h; simp at h
          | ok d => rw [ht] at h; simp at h
        · simpa [← List.length_eq_zero] using hlen

/-- Oracle bundle for the text-fallback witness: insufficient (3-character) text,
failing image rendering, failing vision call, succeeding text call. -/
def wEnvFallback : PipelineEnv :=
  { extractedText := "abc", imagesResult := .error "render failed",
    visionResult := .error "vision failed", textResult := .ok wStructured,
    embedding := [1] }

/-- C2, witness: the concrete fallback run persists with method `text_fallback`. -/
theorem c2_text_fallback_witness :
    processCVFile wEnvFallback "g.pdf" 4 9 =
      .ok (builtCVRecord wStructured wEnvFallback "g.pdf" 4 9
        ExtractionMethod.text_fallback) :=
  ((c2_text_fallback.1 wEnvFallback "g.pdf" 4 9 wStructured (by decide) (by decide)
    (Or.inl ⟨"render failed", rfl⟩) rfl)).1

/-! ### Claims C7 and C5 — upsert uniqueness and cache monotonicity -/

/-- Number of stored MatchRecords for one (cvId, jobId) pair. -/
def pairCount (store : List MatchRecord) (cvId jobId : Nat) : Nat :=
  (store.filter (fun m => m.cvId = cvId && m.jobId = jobId)).length

theorem findMatch_eq_none_iff {store : List MatchRecord} {a b : Nat} :
    findMatch store a b = none ↔ pairCount store a b = 0 := by
  unfold findMatch pairCount
  rw [List.find?_eq_none, List.length_eq_zero, List.filter_eq_nil_iff]

theorem filter_map_invariant {α : Type} (f : α → α) (p : α → Bool)
    (hf : ∀ x, p (f x) = p x) (l : List α) :
    ((l.map f).filter p).length = (l.filter p).length := by
  induction l with
  | nil => rfl
  | cons x t ih =>
    by_cases hp : p x
    · simp only [List.map_cons, List.filter_cons, hf, hp, if_true, List.length_cons,
        ih]
    · simp only [List.map_cons, List.filter_cons, hf, hp, if_false, ih,
        Bool.false_eq_true]

/-- The in-place update preserves the pair key. -/
theorem updatedMatchRecord_pair (m : MatchRecord) (cv : CVRecord) (job : JobRecord)
    (r : MatchResult) (now : Int) :
    (updatedMatchRecord m cv job r now).cvId = m.cvId ∧
    (updatedMatchRecord m cv job r now).jobId = m.jobId := ⟨rfl, rfl⟩

/-- C7: at most one MatchRecord per (candidateId, jobId) pair — a `computeMatch`
invocation preserves the at-most-one invariant, the first computation for a pair
appends exactly the one new record, and every later recomputation updates in place
(same store length, still exactly one record for the pair). -/
theorem c7_upsert_unique :
    ∀ (store : List MatchRecord) (cv : CVRecord) (job : JobRecord)
      (raw : RawMatchResponse) (now : Int),
      pairCount store cv.id job.id ≤ 1 →
      pairCount (calculateMatchingScore store cv job raw now).2 cv.id job.id ≤ 1 ∧
      (pairCount store cv.id job.id = 0 →
        (calculateMatchingScore store cv job raw now).2 =
          store ++ [newMatchRecord cv job (calculateJobMatch raw) now] ∧
        pairCount (calculateMatchingScore store cv job raw now).2 cv.id job.id = 1) ∧
      (pairCount store cv.id job.id = 1 →
        (calculateMatchingScore store cv job raw now).2.length = store.length ∧
        pairCount (calculateMatchingScore store cv job raw now).2 cv.id job.id = 1) := by
  intro store cv job raw now hle
  simp only [calculateMatchingScore]
  by_cases hvalid : isCacheValid (findMatch store cv.id job.id) cv job now
  · rw [if_pos hvalid]
    cases hfind : findMatch store cv.id job.id with
    | none => rw [hfind] at hvalid; simp [isCacheValid] at hvalid
    | some m =>
      have hge : pairCount store cv.id job.id ≠ 0 := by
        intro h0
        rw [← findMatch_eq_none_iff] at h0
        rw [h0] at hfind
        exact Option.noConfusion hfind
      exact ⟨hle, fun h0 => absurd h0 hge, fun h1 => ⟨rfl, h1⟩⟩
  · rw [if_neg hvalid]
    cases hfind : findMatch store cv.id job.id with
    | none =>
      have h0 : pairCount store cv.id job.id = 0 := findMatch_eq_none_iff.mp hfind
      dsimp only
      have happ : pairCount
          (store ++ [newMatchRecord cv job (calculateJobMatch raw) now])
          cv.id job.id = 1 := by
        unfold pairCount at h0 ⊢
        rw [List.filter_append, List.length_append, h0]
        simp [newMatchRecord]
      exact ⟨by omega, fun _ => ⟨rfl, happ⟩, fun h1 => by omega⟩
    | some m =>
      have hne : pairCount store cv.id job.id ≠ 0 := by
        intro h0
        rw [← findMatch_eq_none_iff] at h0
        rw [h0] at hfind
        exact Option.noConfusion hfind
      dsimp only
      have hmap : pairCount (store.map (fun m0 =>
          if m0.cvId = cv.id && m0.jobId = job.id then
            updatedMatchRecord m0 cv job (calculateJobMatch raw) now
          else m0)) cv.id job.id = pairCount store cv.id job.id := by
        unfold pairCount
        refine filter_map_invariant _ _ (fun x => ?_) store
        by_cases hp : (x.cvId = cv.id && x.jobId = job.id) = true
        · rw [if_pos hp]
          rfl
        · rw [if_neg hp]
      refine ⟨by omega, fun h0 => absurd h0 hne, fun h1 => ⟨List.length_map _ _, ?_⟩⟩
      rw [hmap, h1]

/-- Concrete store entries for the C7 witness. -/
def c7cv : CVRecord := { c1CV with id := 7 }

/-- C7, witness: starting from the empty store, a first computation creates exactly
one record for the pair. -/
theorem c7_upsert_unique_witness :
    pairCount (calculateMatchingScore [] c7cv c1Job ⟨80, ⟨none, none, none, none⟩, []⟩
      100).2 c7cv.id c1Job.id = 1 :=
  ((c7_upsert_unique [] c7cv c1Job ⟨80, ⟨none, none, none, none⟩, []⟩ 100
    (by decide)).2.1 (by decide)).2

/-- Stored match for the C5 counterexample: computed when the candidate's
modification timestamp was 0. -/
def c5m : MatchRecord :=
  { cvId := 1, jobId := 2, score := 40, details := zeroDetails, recommendations := [],
    cvVersion := 0, jobVersion := 0, createdAt := 0, updatedAt := 0,
    cacheTime := 604800 }

/-- The candidate after its modification timestamp advanced to 10. -/
def c5cv : CVRecord := { c1CV with extractedAt := 10 }

/-- Upstream scoring response for the C5 runs. -/
def c5raw : RawMatchResponse := ⟨80, ⟨none, none, none, none⟩, []⟩

/-- C5, counterexample: with a stored record at `cvVersion = 0` and the candidate's
modification timestamp advanced to 10, the recomputation's returned value does NOT
have `fromCache = false` — the source returns the upstream result as-is, leaving
`fromCache` undefined (`none`), which callers coerce with `|| false`. -/
theorem c5_counterexample :
    findMatch [c5m] c5cv.id c1Job.id = some c5m ∧
    c5m.cvVersion = 0 ∧ cvUpdateTime c5cv = 10 ∧
    (calculateMatchingScore [c5m] c5cv c1Job c5raw 50).1.fromCache = none ∧
    ¬((calculateMatchingScore [c5m] c5cv c1Job c5raw 50).1.fromCache = some false) := by
  decide

/-- C5, amended: when a stored MatchRecord's `cvVersion` is behind the candidate's
current modification timestamp, `computeMatch` does not serve the cache — the result's
`fromCache` is left undefined (`none`, falsy; in particular not `true`) — and every
stored record for the pair has its `cvVersion` updated in place to the candidate's
new timestamp. -/
theorem c5_cache_monotonicity_amended :
    ∀ (store : List MatchRecord) (cv : CVRecord) (job : JobRecord)
      (raw : RawMatchResponse) (now : Int) (m : MatchRecord),
      findMatch store cv.id job.id = some m →
      m.cvVersion < cvUpdateTime cv →
      (calculateMatchingScore store cv job raw now).1.fromCache = none ∧
      (calculateMatchingScore store cv job raw now).1.fromCache ≠ some true ∧
      (∀ r ∈ (calculateMatchingScore store cv job raw now).2,
        r.cvId = cv.id → r.jobId = job.id → r.cvVersion = cvUpdateTime cv) := by
  intro store cv job raw now m hfind hver
  have hinvalid : isCacheValid (some m) cv job now = false := by
    simp only [isCacheValid]
    rw [if_pos]
    simp only [Bool.or_eq_true, decide_eq_true_eq]
    exact Or.inl hver
  simp only [calculateMatchingScore, hfind, hinvalid, Bool.false_eq_true, if_false]
  refine ⟨by trivial, by simp, ?_⟩
  intro r hr hcv hjob
  rw [List.mem_map] at hr
  obtain ⟨x, hx, hfx⟩ := hr
  by_cases hp : (x.cvId = cv.id && x.jobId = job.id) = true
  · rw [if_pos hp] at hfx
    rw [← hfx]
    rfl
  · rw [if_neg hp] at hfx
    subst hfx
    simp only [Bool.and_eq_true, decide_eq_true_eq, not_and] at hp
    exact absurd hjob (hp hcv)

/-- C5 amended, witness: the concrete recomputation of `c5_counterexample`'s store
leaves `fromCache` undefined. -/
theorem c5_cache_monotonicity_amended_witness :
    (calculateMatchingScore [c5m] c5cv c1Job c5raw 50).1.fromCache = none :=
  (c5_cache_monotonicity_amended [c5m] c5cv c1Job c5raw 50 c5m (by decide)
    (by decide)).1

/-! ### Claim C9 — scoring-details normalization -/

/-- The four sub-score slots of the `details` object. -/
inductive DetailSection where
  | skills
  | experience
  | education
  | overall
  deriving Repr, DecidableEq

/-- Normalization exactly as the claim states it: ANY alternate key among `match`,
`relevance`, `fit`, `alignment` carrying the numeric sub-score is mapped onto
`score` (first truthy value wins, in that order), for every sub-object alike. -/
def normalizeSubClaim (sub : Option RawSubScore) : SubScore where
  score :=
    jsOrNum (rawField sub (·.score))
      (jsOrNum (rawField sub (·.matchScore))
        (jsOrNum (rawField sub (·.relevance))
          (jsOrNum (rawField sub (·.fit))
            (jsOrNum (rawField sub (·.alignment)) 0))))
  analysis := jsOrEmpty (rawAnalysis sub)

/-- The claim's normalization applied to all four sub-objects. -/
def normalizeDetailsClaim (d : RawDetails) : MatchDetails where
  skills := normalizeSubClaim d.skills
  experience := normalizeSubClaim d.experience
  education := normalizeSubClaim d.education
  overall := normalizeSubClaim d.overall

/-- The single alternate key the source actually consults, per sub-object:
`skills`→`match`, `experience`→`relevance`, `education`→`alignment`,
`overall`→`fit` (one explicit mapping table). -/
def altKeyTable : DetailSection → RawSubScore → Option ℚ
  | .skills => (·.matchScore)
  | .experience => (·.relevance)
  | .education => (·.alignment)
  | .overall => (·.fit)

/-- Table-driven statement of the source's per-sub-object normalization: `score`
if truthy, else the section's single alternate key if truthy, else 0; `analysis`
defaulted to the empty string. -/
def normalizeSubAmended (sec : DetailSection) (sub : Option RawSubScore) : SubScore where
  score := jsOrNum (rawField sub (·.score)) (jsOrNum (rawField sub (altKeyTable sec)) 0)
  analysis := jsOrEmpty (rawAnalysis sub)

/-- The amended normalization over all four sub-objects. -/
def normalizeDetailsAmended (d : RawDetails) : MatchDetails where
  skills := normalizeSubAmended .skills d.skills
  experience := normalizeSubAmended .experience d.experience
  education := normalizeSubAmended .education d.education
  overall := normalizeSubAmended .overall d.overall

/-- An upstream response whose `skills` sub-object carries its numeric value under
the alternate key `fit`. -/
def c9raw : RawMatchResponse :=
  ⟨75, ⟨some ⟨none, none, none, some 50, none, some "good"⟩, none, none, none⟩, []⟩

/-- C9, counterexample: the claim says any alternate key among `match`, `relevance`,
`fit`, `alignment` is mapped onto `score`; but for a `skills` sub-object carrying its
value under `fit`, the source yields `score = 0` (it only consults `skills.match`),
differing from the claim's normalization, which yields 50. -/
theorem c9_details_normalization_counterexample :
    (calculateJobMatch c9raw).details.skills.score = 0 ∧
    (normalizeDetailsClaim c9raw.details).skills.score = 50 ∧
    (calculateJobMatch c9raw).details ≠ normalizeDetailsClaim c9raw.details := by
  decide

/-- C9, amended: the normalized details consist of exactly the four sub-objects
`skills`, `experience`, `education`, `overall` of shape `{score, analysis}`, where
each sub-object's numeric value is taken from `score` or, failing that (absent or
falsy), from that sub-object's ONE designated alternate key — `match` for skills,
`relevance` for experience, `alignment` for education, `fit` for overall — with
missing numbers defaulting to 0 and missing analysis to the empty string; the
overall score and recommendations pass through unchanged. -/
theorem c9_details_normalization_amended :
    ∀ raw : RawMatchResponse,
      calculateJobMatch raw =
        ⟨raw.score, normalizeDetailsAmended raw.details, raw.recommendations⟩ := by
  intro raw
  rfl

/-! ### Claims C4 and C8 — filter-only fallback and embedding eligibility -/

/-- C4: whenever the residual semantic query is shorter than 3 characters (which
includes the empty residual) or the filtered candidate set is empty, `searchCVs`
returns the first min(N, |filtered|) filtered candidates in filter order, each with
score exactly 1.0 and matchType `filter`, and the result does not depend on the
embedding client at all. -/
theorem c4_filter_only_fallback :
    ∀ (getEmb : String → List ℚ) (store : List CVRecord) (query : String)
      (limit : Nat),
      ((parseSearchQuery query).2.length < 3 ∨
        store.filter (matchesDbQuery (buildDatabaseQuery (parseSearchQuery query).1))
          = []) →
      searchCVs getEmb store query limit =
        ((store.filter
          (matchesDbQuery (buildDatabaseQuery (parseSearchQuery query).1))).take
            limit).map (fun cv => ⟨cv, some 1, .filter⟩) ∧
      (∀ getEmb2 : String → List ℚ,
        searchCVs getEmb2 store query limit = searchCVs getEmb store query limit) ∧
      (searchCVs getEmb store query limit).length =
        min limit (store.filter
          (matchesDbQuery (buildDatabaseQuery (parseSearchQuery query).1))).length ∧
      (∀ item ∈ searchCVs getEmb store query limit,
        item.score = some 1 ∧ item.matchType = MatchType.filter) := by
  intro getEmb store query limit hcond
  have hif : ((parseSearchQuery query).2.length < 3 ∨
      (store.filter
        (matchesDbQuery (buildDatabaseQuery (parseSearchQuery query).1))).length = 0) := by
    rcases hcond with h | h
    · exact Or.inl h
    · exact Or.inr (by rw [h]; rfl)
  have hbool : (decide ((parseSearchQuery query).2.length < 3) ||
      decide ((store.filter
        (matchesDbQuery (buildDatabaseQuery (parseSearchQuery query).1))).length
          = 0)) = true := by
    rcases hif with h | h
    · simp [h]
    · simp [h]
  have heval : ∀ g : String → List ℚ, searchCVs g store query limit =
      ((store.filter
        (matchesDbQuery (buildDatabaseQuery (parseSearchQuery query).1))).take
          limit).map (fun cv => ⟨cv, some 1, .filter⟩) := by
    intro g
    simp only [searchCVs]
    rw [if_pos hbool]
  refine ⟨heval getEmb, fun g2 => (heval g2).trans (heval getEmb).symm, ?_, ?_⟩
  · rw [heval getEmb, List.length_map, List.length_take]
  · intro item hmem
    rw [heval getEmb, List.mem_map] at hmem
    obtain ⟨cv, -, hcv⟩ := hmem
    rw [← hcv]
    exact ⟨rfl, rfl⟩

/-- A candidate that has a stored embedding (eligible for search). -/
def cvEmb : CVRecord := { c1CV with id := 4, embedding := some [1] }

unseal univLoop roleLoop matchAll in
/-- C4, witness: the two-character query "hi" takes the filter-only path on a
one-candidate store. -/
theorem c4_filter_only_fallback_witness :
    searchCVs (fun _ => []) [cvEmb] "hi" 10 =
      (([cvEmb].filter
        (matchesDbQuery (buildDatabaseQuery (parseSearchQuery "hi").1))).take
          10).map (fun cv => ⟨cv, some 1, .filter⟩) :=
  (c4_filter_only_fallback (fun _ => []) [cvEmb] "hi" 10 (Or.inl (by decide))).1

/-- The database predicate passes only documents with a stored embedding. -/
theorem matchesDbQuery_embedding {filters : SearchFilters} {cv : CVRecord}
    (h : matchesDbQuery (buildDatabaseQuery filters) cv = true) :
    cv.embedding.isSome = true := by
  unfold matchesDbQuery buildDatabaseQuery at h
  simp only [Bool.and_eq_true] at h
  have h1 := h.1.1.1.1
  simpa using h1

/-- C8: the query object always requires the `embedding` field to exist, so a
candidate without a stored embedding is never in `searchCVs`' result list, on either
path, whatever the filters matched. -/
theorem c8_embedding_required :
    ∀ (filters : SearchFilters) (cv : CVRecord),
      (buildDatabaseQuery filters).embeddingExists = true ∧
      (matchesDbQuery (buildDatabaseQuery filters) cv = true →
        cv.embedding.isSome = true) ∧
      (∀ (getEmb : String → List ℚ) (store : List CVRecord) (query : String)
        (limit : Nat) (item : SearchResultItem),
        item ∈ searchCVs getEmb store query limit →
        item.cv.embedding.isSome = true) := by
  intro filters cv
  refine ⟨rfl, matchesDbQuery_embedding, ?_⟩
  intro getEmb store query limit item hmem
  simp only [searchCVs] at hmem
  split at hmem
  · rw [List.mem_map] at hmem
    obtain ⟨cv2, hcv2, hitem⟩ := hmem
    have hcv2f : cv2 ∈ store.filter
        (matchesDbQuery (buildDatabaseQuery (parseSearchQuery query).1)) :=
      List.mem_of_mem_take hcv2
    have := List.of_mem_filter hcv2f
    rw [← hitem]
    exact matchesDbQuery_embedding this
  · rw [List.mem_map] at hmem
    obtain ⟨p, hp, hitem⟩ := hmem
    have hp2 : p ∈ (store.filter
        (matchesDbQuery (buildDatabaseQuery (parseSearchQuery query).1))).map
          (fun cv => (cv, calculateCosineSimilarity
            (getEmb (parseSearchQuery query).2) (cv.embedding.getD []))) := by
      have := List.mem_of_mem_take hp
      rwa [List.mem_mergeSort] at this
    rw [List.mem_map] at hp2
    obtain ⟨cv2, hcv2, hpeq⟩ := hp2
    have := List.of_mem_filter hcv2
    rw [← hitem, ← hpeq]
    exact matchesDbQuery_embedding this

unseal univLoop roleLoop matchAll in
/-- C8, witness: the concrete filter-path result of `searchCVs` on a one-candidate
store has its embedding present. -/
theorem c8_embedding_required_witness :
    (⟨cvEmb, some 1, .filter⟩ : SearchResultItem).cv.embedding.isSome = true :=
  (c8_embedding_required ⟨none, none, none, []⟩ cvEmb).2.2 (fun _ => []) [cvEmb]
    "hi" 10 ⟨cvEmb, some 1, .filter⟩
    (by
      rw [(c4_filter_only_fallback (fun _ => []) [cvEmb] "hi" 10 (Or.inl (by decide))).1]
      have : [cvEmb].filter
          (matchesDbQuery (buildDatabaseQuery (parseSearchQuery "hi").1)) = [cvEmb] := by
        decide
      rw [this]
      simp)

/-! ### Claim C6 — cosine similarity bounds -/

theorem dotProduct_nil_right (a : List ℚ) : dotProduct a [] = 0 := by
  cases a <;> rfl

theorem foldl_add_shift (g : ℚ × ℚ → ℚ) (l : List (ℚ × ℚ)) :
    ∀ c : ℚ, l.foldl (fun s p => s + g p) c = c + l.foldl (fun s p => s + g p) 0 := by
  induction l with
  | nil => intro c; simp
  | cons p t ih =>
    intro c
    simp only [List.foldl_cons]
    rw [ih (c + g p), ih (0 + g p)]
    ring

theorem dotProduct_cons (a b : ℚ) (as bs : List ℚ) :
    dotProduct (a :: as) (b :: bs) = a * b + dotProduct as bs := by
  unfold dotProduct
  simp only [List.zip_cons_cons, List.foldl_cons]
  rw [foldl_add_shift (fun p => p.1 * p.2) (as.zip bs)]
  ring_nf

theorem foldl_sq_shift (l : List ℚ) :
    ∀ c : ℚ, l.foldl (fun s x => s + x * x) c = c + l.foldl (fun s x => s + x * x) 0 := by
  induction l with
  | nil => intro c; simp
  | cons x t ih =>
    intro c
    simp only [List.foldl_cons]
    rw [ih (c + x * x), ih (0 + x * x)]
    ring

theorem magnitudeSq_cons (a : ℚ) (as : List ℚ) :
    magnitudeSq (a :: as) = a * a + magnitudeSq as := by
  unfold magnitudeSq
  simp only [List.foldl_cons]
  rw [foldl_sq_shift as (0 + a * a)]
  ring

theorem magnitudeSq_nonneg (v : List ℚ) : 0 ≤ magnitudeSq v := by
  induction v with
  | nil => simp [magnitudeSq]
  | cons a as ih =>
    rw [magnitudeSq_cons]
    nlinarith [mul_self_nonneg a]

/-- Cauchy–Schwarz for the JS dot product and squared magnitudes. -/
theorem dotProduct_sq_le (a b : List ℚ) :
    dotProduct a b ^ 2 ≤ magnitudeSq a * magnitudeSq b := by
  induction a generalizing b with
  | nil =>
    have h0 : dotProduct [] b = 0 := rfl
    have ha : magnitudeSq ([] : List ℚ) = 0 := rfl
    rw [h0, ha]
    simp
  | cons x as ih =>
    cases b with
    | nil =>
      rw [dotProduct_nil_right]
      have hb : magnitudeSq ([] : List ℚ) = 0 := rfl
      rw [hb]
      simp
    | cons y bs =>
      rw [dotProduct_cons, magnitudeSq_cons, magnitudeSq_cons]
      have hab := ih bs
      have hA := magnitudeSq_nonneg as
      have hB := magnitudeSq_nonneg bs
      set A := magnitudeSq as with hAdef
      set B := magnitudeSq bs with hBdef
      set D := dotProduct as bs with hDdef
      by_cases hB0 : B = 0
      · have hD0 : D = 0 := by nlinarith [sq_nonneg D]
        rw [hB0, hD0]
        nlinarith [mul_nonneg hA (sq_nonneg y), sq_nonneg (x * y)]
      · have hBpos : 0 < B := lt_of_le_of_ne hB (Ne.symm hB0)
        nlinarith [sq_nonneg (x * B - y * D),
          mul_nonneg (by positivity : (0:ℚ) ≤ y ^ 2 + B)
            (sub_nonneg.mpr hab)]

/-- Whenever the cosine computation returns a number, it lies in [-1, 1]. -/
theorem calculateCosineSimilarity_some_bounds {vecA vecB : List ℚ} {r : ℝ}
    (h : calculateCosineSimilarity vecA vecB = some r) : -1 ≤ r ∧ r ≤ 1 := by
  unfold calculateCosineSimilarity at h
  by_cases hz : magnitudeSq vecA * magnitudeSq vecB = 0
  · rw [if_pos hz] at h
    exact absurd h (by simp)
  · rw [if_neg hz] at h
    simp only [Option.some.injEq] at h
    have hA0 : magnitudeSq vecA ≠ 0 := fun hc => hz (by rw [hc]; ring)
    have hB0 : magnitudeSq vecB ≠ 0 := fun hc => hz (by rw [hc]; ring)
    have hA : (0:ℚ) < magnitudeSq vecA :=
      lt_of_le_of_ne (magnitudeSq_nonneg vecA) (Ne.symm hA0)
    have hB : (0:ℚ) < magnitudeSq vecB :=
      lt_of_le_of_ne (magnitudeSq_nonneg vecB) (Ne.symm hB0)
    have hcs := dotProduct_sq_le vecA vecB
    have hcsR : ((dotProduct vecA vecB : ℚ) : ℝ) ^ 2 ≤
        ((magnitudeSq vecA : ℚ) : ℝ) * ((magnitudeSq vecB : ℚ) : ℝ) := by
      exact_mod_cast hcs
    have hAR : (0:ℝ) < ((magnitudeSq vecA : ℚ) : ℝ) := by exact_mod_cast hA
    have hBR : (0:ℝ) < ((magnitudeSq vecB : ℚ) : ℝ) := by exact_mod_cast hB
    have hm : Real.sqrt (magnitudeSq vecA) * Real.sqrt (magnitudeSq vecB) =
        Real.sqrt (((magnitudeSq vecA : ℚ) : ℝ) * ((magnitudeSq vecB : ℚ) : ℝ)) :=
      (Real.sqrt_mul hAR.le _).symm
    have hdenom : (0:ℝ) <
        Real.sqrt (((magnitudeSq vecA : ℚ) : ℝ) * ((magnitudeSq vecB : ℚ) : ℝ)) :=
      Real.sqrt_pos.mpr (by positivity)
    have habs : |r| ≤ 1 := by
      rw [← h, abs_div, hm, abs_of_nonneg (Real.sqrt_nonneg _), div_le_one hdenom,
        ← Real.sqrt_sq_eq_abs]
      exact Real.sqrt_le_sqrt hcsR
    exact abs_le.mp habs

/-- C6, amended: the cosine computation yields `NaN` (0/0, the division by zero)
exactly when either vector has zero magnitude; whenever it yields a number, that
number lies in [-1, 1] (not [0, 1]: it is negative for anti-aligned vectors);
consequently every score annotated on a search result is either `NaN` or a real
number in [-1, 1] (filter-path scores being exactly 1). -/
theorem c6_cosine_bounds_amended :
    (∀ vecA vecB : List ℚ,
      calculateCosineSimilarity vecA vecB = none ↔
        (magnitudeSq vecA = 0 ∨ magnitudeSq vecB = 0)) ∧
    (∀ (vecA vecB : List ℚ) (r : ℝ),
      calculateCosineSimilarity vecA vecB = some r → -1 ≤ r ∧ r ≤ 1) ∧
    (∀ (getEmb : String → List ℚ) (store : List CVRecord) (query : String)
      (limit : Nat) (item : SearchResultItem),
      item ∈ searchCVs getEmb store query limit →
      item.score = none ∨ ∃ r, item.score = some r ∧ -1 ≤ r ∧ r ≤ 1) := by
  refine ⟨?_, fun vecA vecB r h => calculateCosineSimilarity_some_bounds h, ?_⟩
  · intro vecA vecB
    unfold calculateCosineSimilarity
    by_cases hz : magnitudeSq vecA * magnitudeSq vecB = 0
    · rw [if_pos hz]
      simpa using mul_eq_zero.mp hz
    · rw [if_neg hz]
      have hno : ¬(magnitudeSq vecA = 0 ∨ magnitudeSq vecB = 0) :=
        fun hc => hz (mul_eq_zero.mpr hc)
      simp [hno]
  · intro getEmb store query limit item hmem
    simp only [searchCVs] at hmem
    split at hmem
    · rw [List.mem_map] at hmem
      obtain ⟨cv2, -, hitem⟩ := hmem
      right
      exact ⟨1, by rw [← hitem], by norm_num, by norm_num⟩
    · rw [List.mem_map] at hmem
      obtain ⟨p, hp, hitem⟩ := hmem
      cases hcos : calculateCosineSimilarity (getEmb (parseSearchQuery query).2)
          (p.1.embedding.getD []) with
      | none =>
        left
        rw [← hitem]
        have hp2 : p ∈ (store.filter
            (matchesDbQuery (buildDatabaseQuery (parseSearchQuery query).1))).map
              (fun cv => (cv, calculateCosineSimilarity
                (getEmb (parseSearchQuery query).2) (cv.embedding.getD []))) := by
          have := List.mem_of_mem_take hp
          rwa [List.mem_mergeSort] at this
        rw [List.mem_map] at hp2
        obtain ⟨cv2, -, hpeq⟩ := hp2
        rw [← hpeq] at hcos ⊢
        exact hcos
      | some r =>
        right
        refine ⟨r, ?_, (calculateCosineSimilarity_some_bounds hcos).1,
          (calculateCosineSimilarity_some_bounds hcos).2⟩
        rw [← hitem]
        have hp2 : p ∈ (store.filter
            (matchesDbQuery (buildDatabaseQuery (parseSearchQuery query).1))).map
              (fun cv => (cv, calculateCosineSimilarity
                (getEmb (parseSearchQuery query).2) (cv.embedding.getD []))) := by
          have := List.mem_of_mem_take hp
          rwa [List.mem_mergeSort] at this
        rw [List.mem_map] at hp2
        obtain ⟨cv2, -, hpeq⟩ := hp2
        rw [← hpeq] at hcos ⊢
        exact hcos

/-- A stored candidate whose embedding is the one-dimensional vector [-1]. -/
def cvNeg : CVRecord := { c1CV with id := 6, embedding := some [-1] }

/-- Evaluation of the cosine at the anti-aligned pair. -/
theorem cosine_eval_neg :
    calculateCosineSimilarity [1] [-1] = some (-1) := by
  norm_num [calculateCosineSimilarity, magnitudeSq, dotProduct, Real.sqrt_one]

/-- Evaluation of the cosine at the aligned pair. -/
theorem cosine_eval_one :
    calculateCosineSimilarity [1] [1] = some 1 := by
  norm_num [calculateCosineSimilarity, magnitudeSq, dotProduct, Real.sqrt_one]

unseal univLoop roleLoop matchAll in
/-- C6, counterexample: with query embedding [1] and stored embedding [-1] the
hybrid path annotates the similarity -1, which is a real number but NOT in [0, 1];
and for zero vectors the computation divides by zero (0/0 = NaN, `none`), so the
score is not a well-defined real number there. -/
theorem c6_cosine_bounds_counterexample :
    calculateCosineSimilarity [1] [-1] = some (-1) ∧
    ¬((0:ℝ) ≤ -1) ∧
    calculateCosineSimilarity [0] [0] = none ∧
    searchCVs (fun _ => [1]) [cvNeg] "xyz" 10 =
      [⟨cvNeg, some (-1), .hybrid⟩] := by
  have hp : parseSearchQuery "xyz" = (⟨none, none, none, []⟩, "xyz") := by decide
  have hm : matchesDbQuery (buildDatabaseQuery ⟨none, none, none, []⟩) cvNeg
      = true := by decide
  refine ⟨cosine_eval_neg, by norm_num, ?_, ?_⟩
  · norm_num [calculateCosineSimilarity, magnitudeSq, dotProduct]
  · have hemb : cvNeg.embedding.getD [] = [-1] := rfl
    simp only [searchCVs, hp]
    rw [if_neg (by simp [List.filter, hm]; decide)]
    simp [List.filter, hm, List.mergeSort, hemb, cosine_eval_neg]

/-- C6 amended, witness: the aligned concrete pair yields a score within the
bounds. -/
theorem c6_cosine_bounds_amended_witness : -1 ≤ (1:ℝ) ∧ (1:ℝ) ≤ 1 :=
  c6_cosine_bounds_amended.2.1 [1] [1] 1 cosine_eval_one

/-! ### Claim C3 — parser idempotence on the residual -/

unseal univLoop roleLoop matchAll in
/-- Parsing the empty string finds no filters. -/
theorem parseSearchQuery_empty :
    parseSearchQuery "" = (⟨none, none, none, []⟩, "") := by decide

unseal univLoop roleLoop matchAll in
/-- C3, counterexample: the grammar-constructible query with two employer phrases
"worked at Google worked at Meta" is parsed with employer filter "Google" only
(non-global regex: one match), leaving the second phrase in the residual; re-parsing
the residual finds a further employer filter, so the second parse's filter set is
NOT empty. -/
theorem c3_parser_idempotence_counterexample :
    (parseSearchQuery "worked at Google worked at Meta").1.company = some "Google" ∧
    (parseSearchQuery "worked at Google worked at Meta").2 = "worked at Meta" ∧
    (parseSearchQuery
      ((parseSearchQuery "worked at Google worked at Meta").2)).1.company
        = some "Meta" ∧
    SearchFilters.isEmpty
      (parseSearchQuery
        ((parseSearchQuery "worked at Google worked at Meta").2)).1 = false := by
  decide

/-- A non-empty word of ASCII letters (the shape of the `\w+` parameters in the
canonical single-phrase queries). -/
def isAlphaWord (w : List Char) : Bool :=
  !w.isEmpty && w.all (fun c => ('a' ≤ c && c ≤ 'z') || ('A' ≤ c && c ≤ 'Z'))

/-- A non-empty string of digits and dots (the `[\d.]+` parameter of a GPA phrase). -/
def isDigitDotWord (w : List Char) : Bool :=
  !w.isEmpty && w.all isDigitDot

theorem alpha_not_ws {c : Char}
    (h : (('a' ≤ c && c ≤ 'z') || ('A' ≤ c && c ≤ 'Z')) = true) :
    isJsWs c = false := by
  simp only [isJsWs, Bool.or_eq_false_iff, decide_eq_false_iff_not]
  refine ⟨⟨⟨⟨⟨?_, ?_⟩, ?_⟩, ?_⟩, ?_⟩, ?_⟩ <;>
    (intro heq; subst heq; exact absurd h (by decide))

theorem alpha_word_char {c : Char}
    (h : (('a' ≤ c && c ≤ 'z') || ('A' ≤ c && c ≤ 'Z')) = true) :
    isJsWordChar c = true := by
  simp only [Bool.or_eq_true, Bool.and_eq_true, decide_eq_true_eq] at h
  simp only [isJsWordChar, Bool.or_eq_true, Bool.and_eq_true, decide_eq_true_eq]
  rcases h with h | h
  · exact Or.inl (Or.inl (Or.inl h))
  · exact Or.inl (Or.inl (Or.inr h))

theorem alpha_not_comma_dot {c : Char}
    (h : (('a' ≤ c && c ≤ 'z') || ('A' ≤ c && c ≤ 'Z')) = true) :
    (!(c = ',' || c = '.')) = true := by
  simp only [Bool.not_eq_true', Bool.or_eq_false_iff, decide_eq_false_iff_not]
  constructor <;> (intro heq; subst heq; exact absurd h (by decide))

theorem digitdot_not_ws {c : Char} (h : isDigitDot c = true) : isJsWs c = false := by
  simp only [isJsWs, Bool.or_eq_false_iff, decide_eq_false_iff_not]
  refine ⟨⟨⟨⟨⟨?_, ?_⟩, ?_⟩, ?_⟩, ?_⟩, ?_⟩ <;>
    (intro heq; subst heq; exact absurd h (by decide))

/-- A successful case-insensitive literal match at the front yields containment. -/
theorem containsIgnoreCase_of_litI {pat s : List Char}
    (h : (litI pat s).isSome = true) : containsIgnoreCase pat s = true := by
  cases s with
  | nil => simpa [containsIgnoreCase] using h
  | cons c t => simp [containsIgnoreCase, h]

theorem containsIgnoreCase_cons {pat : List Char} (c : Char) {t : List Char}
    (h : containsIgnoreCase pat t = true) :
    containsIgnoreCase pat (c :: t) = true := by
  simp [containsIgnoreCase, h]

theorem containsIgnoreCase_of_suffix {pat s1 s2 : List Char}
    (hsuf : s1 <:+ s2) (h : containsIgnoreCase pat s1 = true) :
    containsIgnoreCase pat s2 = true := by
  obtain ⟨pre, rfl⟩ := hsuf
  induction pre with
  | nil => simpa using h
  | cons c t ih => exact containsIgnoreCase_cons c ih

/-- Leftmost search fails everywhere when a monotone necessary condition of the
anchored matcher fails on the whole string. -/
theorem findAt_none_of_pred {m : List Char → Option (List Char × List Char)}
    {P : List Char → Bool}
    (hP : ∀ s r, m s = some r → P s = true)
    (hmono : ∀ c t, P t = true → P (c :: t) = true) :
    ∀ q, P q = false → findAt m q = none := by
  intro q
  induction q with
  | nil =>
    intro hq
    rw [findAt]
    cases hm : m [] with
    | some r => exact absurd (hP [] r hm) (by rw [hq]; simp)
    | none => rfl
  | cons c t ih =>
    intro hq
    have hqt : P t = false := by
      cases hpt : P t
      · rfl
      · exact absurd (hmono c t hpt) (by rw [hq]; simp)
    have hm : m (c :: t) = none := by
      cases hm2 : m (c :: t) with
      | some r => exact absurd (hP _ r hm2) (by rw [hq]; simp)
      | none => rfl
    rw [findAt, hm, ih hqt]

theorem findPattern_eq_none {m : List Char → Option (List Char × List Char)}
    {q : List Char} (h : findAt m q = none) : findPattern m q = none := by
  unfold findPattern
  rw [h]

theorem matchAll_eq_nil {m : List Char → Option (List Char × List Char)}
    (hm : Consuming m) {q : List Char} (h : findAt m q = none) :
    matchAll m hm q = [] := by
  rw [matchAll, h]

theorem matchGpaAt_kw {s : List Char} {r : List Char × List Char}
    (h : matchGpaAt s = some r) : containsIgnoreCase "gpa".data s = true := by
  unfold matchGpaAt at h
  cases hl : litI "gpa".data s with
  | none => rw [hl] at h; simp at h
  | some s1 => exact containsIgnoreCase_of_litI (by rw [hl]; rfl)

theorem matchCompanyAt_kw {s : List Char} {r : List Char × List Char}
    (h : matchCompanyAt s = some r) : containsIgnoreCase "work".data s = true := by
  unfold matchCompanyAt at h
  cases hl : litI "work".data s with
  | none => rw [hl] at h; simp at h
  | some s1 => exact containsIgnoreCase_of_litI (by rw [hl]; rfl)

theorem matchUniversityAt_kw {s : List Char} {r : List Char × List Char}
    (h : matchUniversityAt s = some r) : containsIgnoreCase "from".data s = true := by
  unfold matchUniversityAt at h
  cases hl : litI "from".data s with
  | none => rw [hl] at h; simp at h
  | some s1 => exact containsIgnoreCase_of_litI (by rw [hl]; rfl)

theorem matchSkillAAt_kw {s : List Char} {r : List Char × List Char}
    (h : matchSkillAAt s = some r) :
    (containsIgnoreCase "experience in".data s ||
     containsIgnoreCase "skilled in".data s ||
     containsIgnoreCase "knows".data s ||
     containsIgnoreCase "familiar with".data s) = true := by
  unfold matchSkillAAt at h
  rcases option_orElse_eq_some h with h1 | ⟨-, h1⟩
  · cases hl : litI "experience in".data s with
    | none => rw [hl] at h1; simp at h1
    | some s1 => simp [containsIgnoreCase_of_litI (hl ▸ rfl : (litI "experience in".data s).isSome = true)]
  · rcases option_orElse_eq_some h1 with h2 | ⟨-, h2⟩
    · cases hl : litI "skilled in".data s with
      | none => rw [hl] at h2; simp at h2
      | some s1 => simp [containsIgnoreCase_of_litI (hl ▸ rfl : (litI "skilled in".data s).isSome = true)]
    · rcases option_orElse_eq_some h2 with h3 | ⟨-, h3⟩
      · cases hl : litI "knows".data s with
        | none => rw [hl] at h3; simp at h3
        | some s1 => simp [containsIgnoreCase_of_litI (hl ▸ rfl : (litI "knows".data s).isSome = true)]
      · cases hl : litI "familiar with".data s with
        | none => rw [hl] at h3; simp at h3
        | some s1 => simp [containsIgnoreCase_of_litI (hl ▸ rfl : (litI "familiar with".data s).isSome = true)]

theorem takeRun_suffix (p : Char → Bool) (s : List Char) : (takeRun p s).2 <:+ s := by
  induction s with
  | nil => exact List.suffix_refl []
  | cons c cs ih =>
    by_cases h : p c
    · simp only [takeRun, h, if_true]
      exact ih.trans (List.suffix_cons c cs)
    · simp only [takeRun, h, if_false, Bool.false_eq_true]
      exact List.suffix_refl _

theorem ws1_suffix {s r : List Char} (h : ws1 s = some r) : r <:+ s := by
  unfold ws1 at h
  split at h
  · exact absurd h (by simp)
  · injection h with h
    exact h ▸ takeRun_suffix isJsWs s

theorem wordRun1_suffix {s w r : List Char} (h : wordRun1 s = some (w, r)) :
    r <:+ s := by
  unfold wordRun1 at h
  split at h
  · exact absurd h (by simp)
  · injection h with h
    have h2 : (takeRun isJsWordChar s).2 = r := congrArg Prod.snd h
    exact h2 ▸ takeRun_suffix isJsWordChar s

/-- Necessary role-keyword condition for the role-regex machinery. -/
def hasRoleKw (s : List Char) : Bool :=
  containsIgnoreCase "developer".data s || containsIgnoreCase "engineer".data s ||
    containsIgnoreCase "specialist".data s

theorem hasRoleKw_of_suffix {s1 s2 : List Char} (hsuf : s1 <:+ s2)
    (h : hasRoleKw s1 = true) : hasRoleKw s2 = true := by
  unfold hasRoleKw at h ⊢
  simp only [Bool.or_eq_true] at h ⊢
  rcases h with (h | h) | h
  · exact Or.inl (Or.inl (containsIgnoreCase_of_suffix hsuf h))
  · exact Or.inl (Or.inr (containsIgnoreCase_of_suffix hsuf h))
  · exact Or.inr (containsIgnoreCase_of_suffix hsuf h)

theorem roleTermin_kw {s r : List Char} (h : roleTermin s = some r) :
    hasRoleKw s = true := by
  unfold roleTermin at h
  cases h1 : ws1 s with
  | none => rw [h1] at h; simp at h
  | some s1 =>
    rw [h1] at h
    dsimp only at h
    have hsuf := ws1_suffix h1
    refine hasRoleKw_of_suffix hsuf ?_
    unfold hasRoleKw
    rcases option_orElse_eq_some h with h2 | ⟨-, h2⟩
    · simp [containsIgnoreCase_of_litI (h2 ▸ rfl : (litI "developer".data s1).isSome = true)]
    · rcases option_orElse_eq_some h2 with h3 | ⟨-, h3⟩
      · simp [containsIgnoreCase_of_litI (h3 ▸ rfl : (litI "engineer".data s1).isSome = true)]
      · simp [containsIgnoreCase_of_litI (h3 ▸ rfl : (litI "specialist".data s1).isSome = true)]

theorem roleLoop_kw {s capEnd rest : List Char}
    (h : roleLoop s = some (capEnd, rest)) : hasRoleKw s = true := by
  induction s using roleLoop.induct generalizing capEnd rest with
  | case1 x r hterm => exact roleTermin_kw hterm
  | case2 x hterm h1 =>
    rw [roleLoop, hterm] at h
    dsimp only at h
    rw [h1] at h
    simp at h
  | case3 x hterm s1 h1 h2 =>
    rw [roleLoop, hterm] at h
    dsimp only at h
    rw [h1] at h
    dsimp only at h
    rw [h2] at h
    simp at h
  | case4 x hterm s1 h1 w s2 h2 ih =>
    rw [roleLoop, hterm] at h
    dsimp only at h
    rw [h1] at h
    dsimp only at h
    rw [h2] at h
    dsimp only at h
    have hkw := ih h
    exact hasRoleKw_of_suffix ((wordRun1_suffix h2).trans (ws1_suffix h1)) hkw

theorem matchSkillBAt_kw {s : List Char} {r : List Char × List Char}
    (h : matchSkillBAt s = some r) : hasRoleKw s = true := by
  unfold matchSkillBAt at h
  cases h1 : wordRun1 s with
  | none => rw [h1] at h; simp at h
  | some p =>
    obtain ⟨w, s1⟩ := p
    rw [h1] at h
    dsimp only at h
    cases h2 : roleLoop s1 with
    | none => rw [h2] at h; simp at h
    | some q =>
      obtain ⟨capEnd, rest⟩ := q
      exact hasRoleKw_of_suffix (wordRun1_suffix h1) (roleLoop_kw h2)

theorem findGpa_none {q : List Char} (h : containsIgnoreCase "gpa".data q = false) :
    findAt matchGpaAt q = none :=
  findAt_none_of_pred (fun _ r hm => matchGpaAt_kw hm)
    (fun c _ ht => containsIgnoreCase_cons c ht) q h

theorem findCompany_none {q : List Char}
    (h : containsIgnoreCase "work".data q = false) :
    findAt matchCompanyAt q = none :=
  findAt_none_of_pred (fun _ r hm => matchCompanyAt_kw hm)
    (fun c _ ht => containsIgnoreCase_cons c ht) q h

theorem findUniversity_none {q : List Char}
    (h : containsIgnoreCase "from".data q = false) :
    findAt matchUniversityAt q = none :=
  findAt_none_of_pred (fun _ r hm => matchUniversityAt_kw hm)
    (fun c _ ht => containsIgnoreCase_cons c ht) q h

/-- Necessary skill-keyword condition for the first skills regex. -/
def hasSkillAKw (s : List Char) : Bool :=
  containsIgnoreCase "experience in".data s ||
    containsIgnoreCase "skilled in".data s ||
    containsIgnoreCase "knows".data s ||
    containsIgnoreCase "familiar with".data s

theorem findSkillA_none {q : List Char} (h : hasSkillAKw q = false) :
    findAt matchSkillAAt q = none := by
  refine findAt_none_of_pred (P := hasSkillAKw) (fun s r hm => ?_)
    (fun c t ht => ?_) q h
  · exact matchSkillAAt_kw hm
  · unfold hasSkillAKw at ht ⊢
    simp only [Bool.or_eq_true] at ht ⊢
    rcases ht with ((ht | ht) | ht) | ht
    · exact Or.inl (Or.inl (Or.inl (containsIgnoreCase_cons c ht)))
    · exact Or.inl (Or.inl (Or.inr (containsIgnoreCase_cons c ht)))
    · exact Or.inl (Or.inr (containsIgnoreCase_cons c ht))
    · exact Or.inr (containsIgnoreCase_cons c ht)

theorem findSkillB_none {q : List Char} (h : hasRoleKw q = false) :
    findAt matchSkillBAt q = none :=
  findAt_none_of_pred (fun _ r hm => matchSkillBAt_kw hm)
    (fun c t ht => hasRoleKw_of_suffix (List.suffix_cons c t) ht) q h

theorem takeRun_append_all {p : Char → Bool} {l : List Char}
    (hl : ∀ c ∈ l, p c = true) (r : List Char) :
    takeRun p (l ++ r) = (l ++ (takeRun p r).1, (takeRun p r).2) := by
  induction l with
  | nil => simp
  | cons c t ih =>
    have hc : p c = true := hl c (List.mem_cons_self c t)
    simp only [List.cons_append, takeRun, hc, if_true, List.append_eq]
    rw [ih (fun x hx => hl x (List.mem_cons_of_mem c hx))]

theorem takeRun_all {p : Char → Bool} {l : List Char}
    (hl : ∀ c ∈ l, p c = true) : takeRun p l = (l, []) := by
  have := takeRun_append_all hl []
  simpa [takeRun] using this

theorem isAlphaWord_all {W : List Char} (hW : isAlphaWord W = true) :
    ∀ c ∈ W, (('a' ≤ c && c ≤ 'z') || ('A' ≤ c && c ≤ 'Z')) = true := by
  unfold isAlphaWord at hW
  simp only [Bool.and_eq_true, List.all_eq_true] at hW
  exact hW.2

theorem isAlphaWord_ne_nil {W : List Char} (hW : isAlphaWord W = true) : W ≠ [] := by
  intro hc
  subst hc
  simp [isAlphaWord] at hW

theorem takeRun_ws_alpha {W : List Char} (hW : isAlphaWord W = true) :
    takeRun isJsWs W = ([], W) := by
  cases W with
  | nil => rfl
  | cons c t =>
    have hc := alpha_not_ws (isAlphaWord_all hW c (List.mem_cons_self c t))
    simp [takeRun, hc]

theorem wordRun1_all {W : List Char} (hW : isAlphaWord W = true) :
    wordRun1 W = some (W, []) := by
  unfold wordRun1
  rw [takeRun_all (fun c hc => alpha_word_char (isAlphaWord_all hW c hc))]
  rw [if_neg (by simpa [List.isEmpty_iff] using isAlphaWord_ne_nil hW)]

theorem ws1_cons_space {W : List Char} (h : takeRun isJsWs W = ([], W)) :
    ws1 (' ' :: W) = some W := by
  unfold ws1
  have hs : takeRun isJsWs (' ' :: W) = ([' '], W) := by
    simp [takeRun, h, show isJsWs ' ' = true from rfl]
  rw [hs]
  rfl

theorem notCommaDotRun1_alpha {W : List Char} (hW : isAlphaWord W = true) :
    notCommaDotRun1 W = some (W, []) := by
  unfold notCommaDotRun1
  rw [takeRun_all (fun c hc => alpha_not_comma_dot (isAlphaWord_all hW c hc))]
  rw [if_neg (by simpa [List.isEmpty_iff] using isAlphaWord_ne_nil hW)]

theorem isDigitDotWord_all {D : List Char} (hD : isDigitDotWord D = true) :
    ∀ c ∈ D, isDigitDot c = true := by
  unfold isDigitDotWord at hD
  simp only [Bool.and_eq_true, List.all_eq_true] at hD
  exact hD.2

theorem takeRun_ws_digitdot {D : List Char} (hD : isDigitDotWord D = true) :
    takeRun isJsWs D = ([], D) := by
  cases D with
  | nil => rfl
  | cons c t =>
    have hc := digitdot_not_ws (isDigitDotWord_all hD c (List.mem_cons_self c t))
    simp [takeRun, hc]

theorem digitDotRun1_all {D : List Char} (hD : isDigitDotWord D = true) :
    digitDotRun1 D = some (D, []) := by
  unfold digitDotRun1
  rw [takeRun_all (isDigitDotWord_all hD)]
  have hne : D ≠ [] := by
    intro hc
    subst hc
    simp [isDigitDotWord] at hD
  rw [if_neg (by simpa [List.isEmpty_iff] using hne)]

theorem replaceFirst_self {s : List Char} (h : s ≠ []) : replaceFirst s s = [] := by
  cases s with
  | nil => exact absurd rfl h
  | cons c t =>
    unfold replaceFirst
    rw [if_pos (List.isPrefixOf_iff_prefix.mpr (List.prefix_refl _))]
    exact List.drop_length _

/-- The employer regex consumes a whole canonical employer phrase. -/
theorem matchCompanyAt_phrase {W : List Char} (hW : isAlphaWord W = true) :
    matchCompanyAt ("worked at ".data ++ W) = some ([], W) := by
  have h6 : ws1 (' ' :: W) = some W := ws1_cons_space (takeRun_ws_alpha hW)
  have h7 : wordRun1 W = some (W, []) := wordRun1_all hW
  unfold matchCompanyAt
  rw [show litI "work".data ("worked at ".data ++ W) = some ("ed at ".data ++ W)
    from rfl]
  dsimp only
  rw [show litI "ed".data ("ed at ".data ++ W) = some (" at ".data ++ W) from rfl]
  dsimp only
  unfold companyAfterWork
  rw [show ws1 (" at ".data ++ W) = some ("at ".data ++ W) from rfl]
  dsimp only
  unfold companyPrepTail
  rw [show litI "in".data ("at ".data ++ W) = none from rfl]
  dsimp only
  rw [show litI "at".data ("at ".data ++ W) = some (' ' :: W) from rfl]
  dsimp only
  rw [h6]
  dsimp only
  rw [h7]
  simp only [Option.none_orElse, Option.some_orElse]

/-- The GPA regex consumes a whole canonical GPA phrase. -/
theorem matchGpaAt_phrase {D : List Char} (hD : isDigitDotWord D = true) :
    matchGpaAt ("gpa above ".data ++ D) = some ([], D) := by
  have h1 : ws1 (' ' :: D) = some D := ws1_cons_space (takeRun_ws_digitdot hD)
  have h2 : digitDotRun1 D = some (D, []) := digitDotRun1_all hD
  unfold matchGpaAt
  rw [show litI "gpa".data ("gpa above ".data ++ D) = some (" above ".data ++ D)
    from rfl]
  dsimp only
  rw [show ws1 (" above ".data ++ D) = some ("above ".data ++ D) from rfl]
  dsimp only
  rw [show litI "above".data ("above ".data ++ D) = some (' ' :: D) from rfl]
  dsimp only
  unfold gpaTail
  rw [h1]
  dsimp only
  rw [h2]
  simp only [Option.some_orElse]

/-- The institution regex consumes a whole canonical institution phrase. -/
theorem matchUniversityAt_phrase {W : List Char} (hW : isAlphaWord W = true) :
    matchUniversityAt ("from ".data ++ W) = some ([], W) := by
  have h6 : ws1 (' ' :: W) = some W := ws1_cons_space (takeRun_ws_alpha hW)
  have h7 : wordRun1 W = some (W, []) := wordRun1_all hW
  have hloop : univLoop [] = some ([], []) := by
    rw [univLoop]
    rfl
  unfold matchUniversityAt
  rw [show litI "from".data ("from ".data ++ W) = some (' ' :: W) from rfl]
  dsimp only
  rw [h6]
  dsimp only
  rw [h7]
  dsimp only
  rw [hloop]
  dsimp only
  simp [List.take_length]

/-- The first skills regex consumes a whole canonical skill phrase. -/
theorem matchSkillAAt_phrase {W : List Char} (hW : isAlphaWord W = true) :
    matchSkillAAt ("experience in ".data ++ W) = some ([], W) := by
  have h6 : ws1 (' ' :: W) = some W := ws1_cons_space (takeRun_ws_alpha hW)
  have h8 : notCommaDotRun1 W = some (W, []) := notCommaDotRun1_alpha hW
  unfold matchSkillAAt
  rw [show litI "experience in".data ("experience in ".data ++ W) = some (' ' :: W)
    from rfl]
  dsimp only
  unfold skillATail
  rw [h6]
  dsimp only
  rw [h8]
  simp only [Option.some_orElse]

/-- The role regex consumes a whole canonical role phrase. -/
theorem matchSkillBAt_phrase {W : List Char} (hW : isAlphaWord W = true) :
    matchSkillBAt (W ++ " developer".data) = some ([], W) := by
  have hw : wordRun1 (W ++ " developer".data) = some (W, " developer".data) := by
    unfold wordRun1
    rw [takeRun_append_all (fun c hc => alpha_word_char (isAlphaWord_all hW c hc))
      (" developer".data)]
    rw [show takeRun isJsWordChar " developer".data = ([], " developer".data)
      from rfl]
    simp [List.isEmpty_iff, isAlphaWord_ne_nil hW]
  have hrt : roleLoop (" developer".data) = some (" developer".data, []) := by
    rw [roleLoop]
    rfl
  unfold matchSkillBAt
  rw [hw]
  dsimp only
  rw [hrt]
  dsimp only
  simp [List.length_append, List.take_left]

theorem findAt_of_head {γ : Type} {m : List Char → Option γ} {q : List Char} {r : γ}
    (hq : q ≠ []) (h : m q = some r) : findAt m q = some (0, r) := by
  cases q with
  | nil => exact absurd rfl hq
  | cons c t => simp only [findAt, h]

theorem findPattern_whole {m : List Char → Option (List Char × List Char)}
    {q cap : List Char} (hq : q ≠ []) (h : m q = some ([], cap)) :
    findPattern m q = some (q, cap) := by
  unfold findPattern
  rw [findAt_of_head hq h]
  simp [List.take_length]

theorem matchAll_whole {m : List Char → Option (List Char × List Char)}
    (hm : Consuming m) {q cap : List Char} (hq : q ≠ [])
    (h : m q = some ([], cap)) (hnil : m [] = none) :
    matchAll m hm q = [(q, cap)] := by
  have h2 : findAt m [] = none := by simp only [findAt, hnil]
  rw [matchAll, findAt_of_head hq h]
  dsimp only
  rw [matchAll_eq_nil hm h2]
  simp [List.take_length]

theorem dropWhile_no_ws {W : List Char} (h : ∀ c ∈ W, isJsWs c = false) :
    W.dropWhile isJsWs = W := by
  cases W with
  | nil => rfl
  | cons c t => simp [List.dropWhile_cons, h c (List.mem_cons_self c t)]

theorem trimList_no_ws {W : List Char} (h : ∀ c ∈ W, isJsWs c = false) :
    trimList W = W := by
  unfold trimList
  rw [dropWhile_no_ws h,
    dropWhile_no_ws (fun c hc => h c (List.mem_reverse.mp hc)), List.reverse_reverse]

theorem trimList_alpha {W : List Char} (hW : isAlphaWord W = true) :
    trimList W = W :=
  trimList_no_ws (fun c hc => alpha_not_ws (isAlphaWord_all hW c hc))

/-- Parsing a canonical single employer phrase consumes the whole query. -/
theorem parse_employer_phrase {W : List Char} (hW : isAlphaWord W = true)
    (h1 : containsIgnoreCase "gpa".data ("worked at ".data ++ W) = false)
    (h2 : containsIgnoreCase "from".data ("worked at ".data ++ W) = false)
    (h3 : hasSkillAKw ("worked at ".data ++ W) = false)
    (h4 : hasRoleKw ("worked at ".data ++ W) = false) :
    parseSearchQuery ⟨"worked at ".data ++ W⟩ =
      (⟨none, some ⟨W⟩, none, []⟩, "") := by
  have hq : ("worked at ".data ++ W) ≠ [] := by simp
  have hgpa := findPattern_eq_none (findGpa_none h1)
  have hcomp := findPattern_whole hq (matchCompanyAt_phrase hW)
  have huniv := findPattern_eq_none (findUniversity_none h2)
  have hA := matchAll_eq_nil matchSkillAAt_consumes (findSkillA_none h3)
  have hB := matchAll_eq_nil matchSkillBAt_consumes (findSkillB_none h4)
  unfold parseSearchQuery
  dsimp only
  rw [hgpa, hcomp, huniv, hA, hB]
  dsimp only
  rw [replaceFirst_self hq]
  rfl

/-- Parsing a canonical single GPA phrase consumes the whole query. -/
theorem parse_gpa_phrase {D : List Char} (hD : isDigitDotWord D = true)
    (h1 : containsIgnoreCase "work".data ("gpa above ".data ++ D) = false)
    (h2 : containsIgnoreCase "from".data ("gpa above ".data ++ D) = false)
    (h3 : hasSkillAKw ("gpa above ".data ++ D) = false)
    (h4 : hasRoleKw ("gpa above ".data ++ D) = false) :
    parseSearchQuery ⟨"gpa above ".data ++ D⟩ =
      (⟨some (jsParseFloat D), none, none, []⟩, "") := by
  have hq : ("gpa above ".data ++ D) ≠ [] := by simp
  have hgpa := findPattern_whole hq (matchGpaAt_phrase hD)
  have hcomp := findPattern_eq_none (findCompany_none h1)
  have huniv := findPattern_eq_none (findUniversity_none h2)
  have hA := matchAll_eq_nil matchSkillAAt_consumes (findSkillA_none h3)
  have hB := matchAll_eq_nil matchSkillBAt_consumes (findSkillB_none h4)
  unfold parseSearchQuery
  dsimp only
  rw [hgpa, hcomp, huniv, hA, hB]
  dsimp only
  rw [replaceFirst_self hq]
  rfl

/-- Parsing a canonical single institution phrase consumes the whole query. -/
theorem parse_institution_phrase {W : List Char} (hW : isAlphaWord W = true)
    (h1 : containsIgnoreCase "gpa".data ("from ".data ++ W) = false)
    (h2 : containsIgnoreCase "work".data ("from ".data ++ W) = false)
    (h3 : hasSkillAKw ("from ".data ++ W) = false)
    (h4 : hasRoleKw ("from ".data ++ W) = false) :
    parseSearchQuery ⟨"from ".data ++ W⟩ =
      (⟨none, none, some ⟨W⟩, []⟩, "") := by
  have hq : ("from ".data ++ W) ≠ [] := by simp
  have hgpa := findPattern_eq_none (findGpa_none h1)
  have hcomp := findPattern_eq_none (findCompany_none h2)
  have huniv := findPattern_whole hq (matchUniversityAt_phrase hW)
  have hA := matchAll_eq_nil matchSkillAAt_consumes (findSkillA_none h3)
  have hB := matchAll_eq_nil matchSkillBAt_consumes (findSkillB_none h4)
  unfold parseSearchQuery
  dsimp only
  rw [hgpa, hcomp, huniv, hA, hB]
  dsimp only
  rw [replaceFirst_self hq]
  simp only [Option.map_some', Option.map_none', List.map_nil]
  rw [trimList_alpha hW]
  rfl

/-- Parsing a canonical single skill-keyword phrase consumes the whole query. -/
theorem parse_skill_phrase {W : List Char} (hW : isAlphaWord W = true)
    (h1 : containsIgnoreCase "gpa".data ("experience in ".data ++ W) = false)
    (h2 : containsIgnoreCase "work".data ("experience in ".data ++ W) = false)
    (h3 : containsIgnoreCase "from".data ("experience in ".data ++ W) = false)
    (h4 : hasRoleKw ("experience in ".data ++ W) = false) :
    parseSearchQuery ⟨"experience in ".data ++ W⟩ =
      (⟨none, none, none, [⟨W⟩]⟩, "") := by
  have hq : ("experience in ".data ++ W) ≠ [] := by simp
  have hgpa := findPattern_eq_none (findGpa_none h1)
  have hcomp := findPattern_eq_none (findCompany_none h2)
  have huniv := findPattern_eq_none (findUniversity_none h3)
  have hA := matchAll_whole matchSkillAAt_consumes hq
    (matchSkillAAt_phrase hW) rfl
  have hB := matchAll_eq_nil matchSkillBAt_consumes (findSkillB_none h4)
  unfold parseSearchQuery
  dsimp only
  rw [hgpa, hcomp, huniv, hA, hB]
  dsimp only
  simp only [List.append_nil, List.nil_append, List.foldl_cons, List.foldl_nil,
    Option.map_some', Option.map_none', List.map_cons, List.map_nil]
  rw [replaceFirst_self hq]
  rw [trimList_alpha hW]
  rfl

/-- Parsing a canonical single role phrase consumes the whole query. -/
theorem parse_role_phrase {W : List Char} (hW : isAlphaWord W = true)
    (h1 : containsIgnoreCase "gpa".data (W ++ " developer".data) = false)
    (h2 : containsIgnoreCase "work".data (W ++ " developer".data) = false)
    (h3 : containsIgnoreCase "from".data (W ++ " developer".data) = false)
    (h4 : hasSkillAKw (W ++ " developer".data) = false) :
    parseSearchQuery ⟨W ++ " developer".data⟩ =
      (⟨none, none, none, [⟨W⟩]⟩, "") := by
  have hq : (W ++ " developer".data) ≠ [] := by simp
  have hgpa := findPattern_eq_none (findGpa_none h1)
  have hcomp := findPattern_eq_none (findCompany_none h2)
  have huniv := findPattern_eq_none (findUniversity_none h3)
  have hA := matchAll_eq_nil matchSkillAAt_consumes (findSkillA_none h4)
  have hB := matchAll_whole matchSkillBAt_consumes hq
    (matchSkillBAt_phrase hW) rfl
  unfold parseSearchQuery
  dsimp only
  rw [hgpa, hcomp, huniv, hA, hB]
  dsimp only
  simp only [List.append_nil, List.nil_append, List.foldl_cons, List.foldl_nil,
    Option.map_some', Option.map_none', List.map_cons, List.map_nil]
  rw [replaceFirst_self hq]
  rw [trimList_alpha hW]
  rfl

/-- C3, amended: idempotence on the residual does NOT hold for every
grammar-constructible query (see the counterexample: patterns are matched against
the original query and the non-global patterns consume only their first occurrence,
so a query with two employer phrases leaves the second in the residual and
re-parsing finds it).  It does hold for canonical single-phrase queries: for each
grammar production — "gpa above D" (D a digit/dot string), "worked at W",
"from W", "experience in W", and "W developer" (W a word of ASCII letters), with
the other patterns' keywords not occurring in the query — the phrase is extracted
as the corresponding filter, the whole query is consumed (empty residual), and
re-parsing the residual finds no further filters. -/
theorem c3_parser_idempotence_amended :
    (∀ D : List Char, isDigitDotWord D = true →
      containsIgnoreCase "work".data ("gpa above ".data ++ D) = false →
      containsIgnoreCase "from".data ("gpa above ".data ++ D) = false →
      hasSkillAKw ("gpa above ".data ++ D) = false →
      hasRoleKw ("gpa above ".data ++ D) = false →
      (parseSearchQuery ⟨"gpa above ".data ++ D⟩).1.gpa = some (jsParseFloat D) ∧
      (parseSearchQuery ⟨"gpa above ".data ++ D⟩).2 = "" ∧
      SearchFilters.isEmpty
        (parseSearchQuery ((parseSearchQuery ⟨"gpa above ".data ++ D⟩).2)).1
          = true) ∧
    (∀ W : List Char, isAlphaWord W = true →
      containsIgnoreCase "gpa".data ("worked at ".data ++ W) = false →
      containsIgnoreCase "from".data ("worked at ".data ++ W) = false →
      hasSkillAKw ("worked at ".data ++ W) = false →
      hasRoleKw ("worked at ".data ++ W) = false →
      (parseSearchQuery ⟨"worked at ".data ++ W⟩).1.company = some ⟨W⟩ ∧
      (parseSearchQuery ⟨"worked at ".data ++ W⟩).2 = "" ∧
      SearchFilters.isEmpty
        (parseSearchQuery ((parseSearchQuery ⟨"worked at ".data ++ W⟩).2)).1
          = true) ∧
    (∀ W : List Char, isAlphaWord W = true →
      containsIgnoreCase "gpa".data ("from ".data ++ W) = false →
      containsIgnoreCase "work".data ("from ".data ++ W) = false →
      hasSkillAKw ("from ".data ++ W) = false →
      hasRoleKw ("from ".data ++ W) = false →
      (parseSearchQuery ⟨"from ".data ++ W⟩).1.university = some ⟨W⟩ ∧
      (parseSearchQuery ⟨"from ".data ++ W⟩).2 = "" ∧
      SearchFilters.isEmpty
        (parseSearchQuery ((parseSearchQuery ⟨"from ".data ++ W⟩).2)).1 = true) ∧
    (∀ W : List Char, isAlphaWord W = true →
      containsIgnoreCase "gpa".data ("experience in ".data ++ W) = false →
      containsIgnoreCase "work".data ("experience in ".data ++ W) = false →
      containsIgnoreCase "from".data ("experience in ".data ++ W) = false →
      hasRoleKw ("experience in ".data ++ W) = false →
      (parseSearchQuery ⟨"experience in ".data ++ W⟩).1.skills = [⟨W⟩] ∧
      (parseSearchQuery ⟨"experience in ".data ++ W⟩).2 = "" ∧
      SearchFilters.isEmpty
        (parseSearchQuery ((parseSearchQuery ⟨"experience in ".data ++ W⟩).2)).1
          = true) ∧
    (∀ W : List Char, isAlphaWord W = true →
      containsIgnoreCase "gpa".data (W ++ " developer".data) = false →
      containsIgnoreCase "work".data (W ++ " developer".data) = false →
      containsIgnoreCase "from".data (W ++ " developer".data) = false →
      hasSkillAKw (W ++ " developer".data) = false →
      (parseSearchQuery ⟨W ++ " developer".data⟩).1.skills = [⟨W⟩] ∧
      (parseSearchQuery ⟨W ++ " developer".data⟩).2 = "" ∧
      SearchFilters.isEmpty
        (parseSearchQuery ((parseSearchQuery ⟨W ++ " developer".data⟩).2)).1
          = true) := by
  refine ⟨?_, ?_, ?_, ?_, ?_⟩
  · intro D hD h1 h2 h3 h4
    have hp := parse_gpa_phrase hD h1 h2 h3 h4
    refine ⟨by rw [hp], by rw [hp], ?_⟩
    rw [hp]
    dsimp only
    rw [parseSearchQuery_empty]
    rfl
  · intro W hW h1 h2 h3 h4
    have hp := parse_employer_phrase hW h1 h2 h3 h4
    refine ⟨by rw [hp], by rw [hp], ?_⟩
    rw [hp]
    dsimp only
    rw [parseSearchQuery_empty]
    rfl
  · intro W hW h1 h2 h3 h4
    have hp := parse_institution_phrase hW h1 h2 h3 h4
    refine ⟨by rw [hp], by rw [hp], ?_⟩
    rw [hp]
    dsimp only
    rw [parseSearchQuery_empty]
    rfl
  · intro W hW h1 h2 h3 h4
    have hp := parse_skill_phrase hW h1 h2 h3 h4
    refine ⟨by rw [hp], by rw [hp], ?_⟩
    rw [hp]
    dsimp only
    rw [parseSearchQuery_empty]
    rfl
  · intro W hW h1 h2 h3 h4
    have hp := parse_role_phrase hW h1 h2 h3 h4
    refine ⟨by rw [hp], by rw [hp], ?_⟩
    rw [hp]
    dsimp only
    rw [parseSearchQuery_empty]
    rfl

/-- C3 amended, witness: the single employer phrase "worked at google". -/
theorem c3_parser_idempotence_amended_witness :
    (parseSearchQuery ⟨"worked at ".data ++ "google".data⟩).1.company
      = some ⟨"google".data⟩ ∧
    (parseSearchQuery ⟨"worked at ".data ++ "google".data⟩).2 = "" ∧
    SearchFilters.isEmpty
      (parseSearchQuery
        ((parseSearchQuery ⟨"worked at ".data ++ "google".data⟩).2)).1 = true :=
  c3_parser_idempotence_amended.2.1 "google".data (by decide) (by decide)
    (by decide) (by decide) (by decide)
